import Mathlib

set_option maxHeartbeats 1000000

/- Verification of the claude-code-proxy request/response translation
   pipeline.  The definitions below are shallow embeddings of the
   JavaScript source: src/unnamed/part_001 holds the complete proxy
   variant (message helpers, tool-schema formatting, tool-call parsing,
   skill lookup, model resolution, response encoding) and src/server.js
   holds the classifier variant (isConversationalRequest,
   findMentionedSkill, mode selection).  Strings are modelled as
   `List Char` internally; the external JSON.parse / JSON.stringify
   builtins are modelled by an executable fuelled JSON parser and a
   compact serializer restricted to integer numerals. -/

namespace Proxy

/-! ## Character and string utilities -/

/-- Whitespace recognised by the model of JavaScript `trim` and of the
    regex class `\s` (space, tab, newline, carriage return). -/
def isWsChar (c : Char) : Bool :=
  c == ' ' || c == '\t' || c == '\n' || c == '\r'

/-- Model of JavaScript `String.prototype.trim` on character lists. -/
def trimChars (l : List Char) : List Char :=
  ((l.dropWhile isWsChar).reverse.dropWhile isWsChar).reverse

/-- Model of JavaScript `toLowerCase` (ASCII range, which is all the
    source ever relies on). -/
def lowerChars (l : List Char) : List Char := l.map Char.toLower

/-- JavaScript `\w` word characters: letters, digits, underscore. -/
def isWordChar (c : Char) : Bool :=
  (c ≥ 'a' && c ≤ 'z') || (c ≥ 'A' && c ≤ 'Z') || (c ≥ '0' && c ≤ '9') || c == '_'

/-- JavaScript `\d`. -/
def isDigitChar (c : Char) : Bool := c ≥ '0' && c ≤ '9'

/-! ## Decimal rendering of naturals

The source builds tool-call ids as `call_${++callCounter}` and response
ids as `chatcmpl-${Date.now()}`; both render a natural number in
decimal.  We give an executable renderer and prove it injective, which
is what makes the generated ids unique. -/

/-- The decimal digit characters. -/
def digitChar : Nat → Char
  | 0 => '0' | 1 => '1' | 2 => '2' | 3 => '3' | 4 => '4'
  | 5 => '5' | 6 => '6' | 7 => '7' | 8 => '8' | 9 => '9'
  | _ => '*'

/-- Fuelled digit expansion, most significant digit first. -/
def natDigits : Nat → Nat → List Char
  | 0, _ => []
  | f+1, n => if n = 0 then [] else natDigits f (n / 10) ++ [digitChar (n % 10)]

/-- Decimal rendering of a natural, as JavaScript template interpolation
    renders a nonnegative integer. -/
def natToString (n : Nat) : String :=
  if n = 0 then "0" else String.mk (natDigits n n)

/-- Numeric value of a decimal digit character. -/
def digitVal (c : Char) : Nat := c.toNat - 48

/-- Reads a digit list back to the natural it denotes. -/
def fromDigits (l : List Char) : Nat :=
  l.foldl (fun acc c => acc * 10 + digitVal c) 0

theorem natDigits_zero (f : Nat) : natDigits f 0 = [] := by
  cases f <;> simp [natDigits]

theorem fromDigits_append_one (l : List Char) (c : Char) :
    fromDigits (l ++ [c]) = fromDigits l * 10 + digitVal c := by
  simp [fromDigits, List.foldl_append]

theorem digitVal_digitChar (n : Nat) (h : n < 10) : digitVal (digitChar n) = n := by
  interval_cases n <;> decide

theorem fromDigits_natDigits : ∀ f n, 0 < n → n ≤ f → fromDigits (natDigits f n) = n := by
  intro f
  induction f with
  | zero => intro n h hle; omega
  | succ f ih =>
    intro n h hle
    have hn : ¬ n = 0 := by omega
    rw [natDigits, if_neg hn, fromDigits_append_one]
    rcases Nat.eq_zero_or_pos (n / 10) with h0 | hpos
    · rw [h0, natDigits_zero]
      have h10 : n < 10 := by omega
      rw [digitVal_digitChar _ (by omega)]
      simp [fromDigits]
      omega
    · have hf : n / 10 ≤ f := by
        have := Nat.div_lt_self h (by norm_num : 1 < 10)
        omega
      rw [ih _ hpos hf, digitVal_digitChar _ (by omega)]
      omega

theorem natToString_inj : Function.Injective natToString := by
  intro a b h
  by_cases ha : a = 0 <;> by_cases hb : b = 0
  · omega
  · exfalso
    rw [natToString, if_pos ha, natToString, if_neg hb] at h
    have hd : natDigits b b = ['0'] := by
      have := congrArg String.data h
      simpa using this.symm
    have := fromDigits_natDigits b b (by omega) le_rfl
    rw [hd] at this
    simp [fromDigits, digitVal] at this
    omega
  · exfalso
    rw [natToString, if_neg ha, natToString, if_pos hb] at h
    have hd : natDigits a a = ['0'] := by
      have := congrArg String.data h
      simpa using this
    have := fromDigits_natDigits a a (by omega) le_rfl
    rw [hd] at this
    simp [fromDigits, digitVal] at this
    omega
  · rw [natToString, if_neg ha, natToString, if_neg hb] at h
    have hd : natDigits a a = natDigits b b := by
      have := congrArg String.data h
      simpa using this
    have h1 := fromDigits_natDigits a a (by omega) le_rfl
    have h2 := fromDigits_natDigits b b (by omega) le_rfl
    rw [hd, h2] at h1
    omega

/-- Prepending a fixed tag keeps distinct payloads distinct. -/
theorem string_append_left_cancel (p a b : String) (h : p ++ a = p ++ b) : a = b := by
  have hd := congrArg String.data h
  simp only [String.data_append] at hd
  have h2 := List.append_cancel_left hd
  cases a; cases b; exact congrArg String.mk h2

/-! ## JSON values

Model of the JavaScript builtins `JSON.parse` and `JSON.stringify`
that the source uses for the inline tool-call micro-protocol.  Numbers
are restricted to integer numerals (no fraction/exponent), `\u` escapes
are not modelled; both restrictions only shrink the set of spans the
model treats as decodable and are never exercised by the claims. -/

inductive Json where
  | null : Json
  | bool (b : Bool) : Json
  | num (n : Int) : Json
  | str (s : String) : Json
  | arr (elems : List Json) : Json
  | obj (fields : List (String × Json)) : Json

/-- JSON insignificant whitespace skipping. -/
def skipWs (l : List Char) : List Char := l.dropWhile isWsChar

/-- The JSON escape table: escape letter paired with the character it
    denotes (backspace and form feed written by code point). -/
def escPairs : List (Char × Char) :=
  [('"', '"'), ('\\', '\\'), ('/', '/'), ('n', '\n'), ('t', '\t'), ('r', '\r'),
   ('b', Char.ofNat 8), ('f', Char.ofNat 12)]

/-- Decoding of a JSON string escape sequence. -/
def escDecode (c : Char) : Option Char :=
  (escPairs.find? (fun p => p.1 == c)).map Prod.snd

/-- Parses the body of a JSON string after the opening quote; raw
    control characters are rejected as `JSON.parse` rejects them. -/
def pStr : List Char → Option (List Char × List Char)
  | [] => none
  | '"' :: r => some ([], r)
  | '\\' :: e :: r2 =>
    match escDecode e with
    | none => none
    | some d => (pStr r2).map (fun p => (d :: p.1, p.2))
  | ['\\'] => none
  | c :: r => if c.toNat < 32 then none else (pStr r).map (fun p => (c :: p.1, p.2))

/-- Parses an unsigned integer numeral; rejects leading zeros and any
    fraction or exponent continuation. -/
def pNumDigits (l : List Char) : Option (Nat × List Char) :=
  let ds := l.takeWhile isDigitChar
  let rest := l.drop ds.length
  if ds.isEmpty then none
  else if ds.length > 1 && ds.headD '0' == '0' then none
  else
    match rest with
    | '.' :: _ => none
    | 'e' :: _ => none
    | 'E' :: _ => none
    | _ => some (fromDigits ds, rest)

/-- Parses a JSON number (integer numerals only in this model). -/
def pNum (l : List Char) : Option (Json × List Char) :=
  match l with
  | '-' :: r => (pNumDigits r).map (fun p => (Json.num (-(p.1 : Int)), p.2))
  | _ => (pNumDigits l).map (fun p => (Json.num (p.1 : Int), p.2))

/-- Object-field insertion with the semantics of JavaScript property
    assignment: a repeated key keeps its first position and takes the
    last value, which is what `JSON.parse` does with duplicate keys. -/
def insertField (fs : List (String × Json)) (k : String) (v : Json) :
    List (String × Json) :=
  if fs.any (fun p => p.1 == k) then fs.map (fun p => if p.1 == k then (k, v) else p)
  else fs ++ [(k, v)]

/-- Parsing mode of the fuelled JSON parser: a value, the fields of an
    object in progress, or the elements of an array in progress. -/
inductive PMode where
  | val : PMode
  | objFields (acc : List (String × Json)) : PMode
  | arrElems (acc : List Json) : PMode

def litNull : List Char := ['n', 'u', 'l', 'l']
def litTrue : List Char := ['t', 'r', 'u', 'e']
def litFalse : List Char := ['f', 'a', 'l', 's', 'e']

/-- The fuelled recursive-descent JSON parser. -/
def pJ : Nat → PMode → List Char → Option (Json × List Char)
  | 0, _, _ => none
  | f+1, PMode.val, l =>
    match skipWs l with
    | '{' :: r => pJ f (PMode.objFields []) r
    | '[' :: r => pJ f (PMode.arrElems []) r
    | '"' :: r => (pStr r).map (fun p => (Json.str (String.mk p.1), p.2))
    | l2 =>
      if litNull.isPrefixOf l2 then some (Json.null, l2.drop 4)
      else if litTrue.isPrefixOf l2 then some (Json.bool true, l2.drop 4)
      else if litFalse.isPrefixOf l2 then some (Json.bool false, l2.drop 5)
      else pNum l2
  | f+1, PMode.objFields acc, l =>
    match skipWs l with
    | '}' :: r => if acc.isEmpty then some (Json.obj [], r) else none
    | '"' :: r =>
      match pStr r with
      | none => none
      | some (k, r2) =>
        match skipWs r2 with
        | ':' :: r3 =>
          match pJ f PMode.val r3 with
          | none => none
          | some (v, r4) =>
            match skipWs r4 with
            | ',' :: r5 => pJ f (PMode.objFields (insertField acc (String.mk k) v)) r5
            | '}' :: r5 => some (Json.obj (insertField acc (String.mk k) v), r5)
            | _ => none
        | _ => none
    | _ => none
  | f+1, PMode.arrElems acc, l =>
    match skipWs l with
    | ']' :: r => if acc.isEmpty then some (Json.arr [], r) else none
    | l2 =>
      match pJ f PMode.val l2 with
      | none => none
      | some (v, r2) =>
        match skipWs r2 with
        | ',' :: r3 => pJ f (PMode.arrElems (acc ++ [v])) r3
        | ']' :: r3 => some (Json.arr (acc ++ [v]), r3)
        | _ => none

/-- Model of `JSON.parse`: a full parse of the input or failure.  The
    fuel bound exceeds the number of parser steps possible on the
    input, so it never cuts a parse short. -/
def jsonParse (l : List Char) : Option Json :=
  match pJ (2 * l.length + 4) PMode.val l with
  | some (v, rest) => if (skipWs rest).isEmpty then some v else none
  | none => none

/-- Field lookup on a parsed object (keys are unique after
    `insertField`). -/
def getField (fs : List (String × Json)) (k : String) : Option Json :=
  match fs.find? (fun p => p.1 == k) with
  | some p => some p.2
  | none => none

/-- JavaScript member access on a non-null value: objects have their
    fields, everything else yields undefined (`none`). -/
def getProp : Json → String → Option Json
  | Json.obj fs, k => getField fs k
  | _, _ => none

/-- JavaScript truthiness of a JSON value. -/
def truthy : Json → Bool
  | Json.null => false
  | Json.bool b => b
  | Json.num n => n != 0
  | Json.str s => s != ""
  | Json.arr _ => true
  | Json.obj _ => true

/-! ### Compact serialization (`JSON.stringify`) -/

def hexDigitChar (n : Nat) : Char :=
  if n < 10 then digitChar n
  else if n == 10 then 'a' else if n == 11 then 'b' else if n == 12 then 'c'
  else if n == 13 then 'd' else if n == 14 then 'e' else 'f'

/-- Escaping of one character inside a serialized JSON string. -/
def escEncode (c : Char) : List Char :=
  if c == '"' then ['\\', '"']
  else if c == '\\' then ['\\', '\\']
  else if c == '\n' then ['\\', 'n']
  else if c == '\t' then ['\\', 't']
  else if c == '\r' then ['\\', 'r']
  else if c == Char.ofNat 8 then ['\\', 'b']
  else if c == Char.ofNat 12 then ['\\', 'f']
  else if c.toNat < 32 then
    ['\\', 'u', '0', '0', hexDigitChar (c.toNat / 16), hexDigitChar (c.toNat % 16)]
  else [c]

def quoteChars (s : String) : List Char :=
  '"' :: (s.data.map escEncode).flatten ++ ['"']

def intToChars (n : Int) : List Char :=
  if n < 0 then '-' :: (natToString n.natAbs).data else (natToString n.natAbs).data

def joinComma : List (List Char) → List Char
  | [] => []
  | [x] => x
  | x :: y :: xs => x ++ ',' :: joinComma (y :: xs)

/-- Fuelled compact serializer. -/
def stringifyF : Nat → Json → List Char
  | 0, _ => []
  | f+1, j =>
    match j with
    | Json.null => litNull
    | Json.bool true => litTrue
    | Json.bool false => litFalse
    | Json.num n => intToChars n
    | Json.str s => quoteChars s
    | Json.arr xs => '[' :: joinComma (xs.map (stringifyF f)) ++ [']']
    | Json.obj fs =>
      '{' :: joinComma (fs.map (fun p => quoteChars p.1 ++ ':' :: stringifyF f p.2)) ++ ['}']

/-- Model of `JSON.stringify` with no spacing argument: the compact
    form.  The caller supplies a fuel that dominates the nesting depth;
    the source only ever serializes values parsed out of a span, whose
    depth is below the span's character count, so the call sites pass
    the span length. -/
def stringifyJson (fuel : Nat) (j : Json) : String :=
  String.mk (stringifyF (fuel + 2) j)

/-! ## ResponseParser — parseToolCalls (src/unnamed/part_001, lines 121-148)

The source scans the agent reply with the global regex
`/<tool_call>\s*([\s\S]*?)\s*<\/tool_call>/g`, JSON-decodes each
captured span (a decode failure is logged and skipped), and strips
every delimited span from the residual content with
`text.replace(/<tool_call>[\s\S]*?<\/tool_call>/g, '')` followed by
`trim()`.  Both regexes delimit the same spans: from an opening tag to
the first closing tag after it.  `findSub` is the literal-substring
search both loops rest on. -/

/-- First occurrence of `pat` in `l`: the part before the match and the
    part after it. -/
def findSub (pat : List Char) (l : List Char) : Option (List Char × List Char) :=
  if pat.isPrefixOf l then some ([], l.drop pat.length)
  else
    match l with
    | [] => none
    | c :: cs => (findSub pat cs).map (fun p => (c :: p.1, p.2))

def openTag : List Char := "<tool_call>".data

def closeTag : List Char := "</tool_call>".data

/-- A structured tool call as the source builds it:
    `{id, type: 'function', function: {name, arguments}}`. -/
structure ToolCall where
  id : String
  type : String
  name : Json
  arguments : String

/-- The message logged by the catch branch:
    ``Failed to parse tool_call: ${match[1].substring(0, 100)}``. -/
def logFailMsg (s : List Char) : String :=
  "Failed to parse tool_call: " ++ String.mk ((trimChars s).take 100)

/-- The `arguments` value the source serializes:
    `parsed.arguments || {}`. -/
def argsOf (j : Json) : Json :=
  match getProp j "arguments" with
  | some av => if truthy av then av else Json.obj []
  | none => Json.obj []

/-- Decoding of a single captured span, mirroring the `try` body: a
    successful `JSON.parse` with a truthy `name` yields one call and
    bumps the counter (`call_${++callCounter}`); `JSON.parse` failure is
    logged, and so is the `TypeError` thrown by `parsed.name` when the
    span is the JSON literal `null`; a non-null value without a truthy
    `name` is skipped silently. -/
def decodeSpan (c : Nat) (s : List Char) : Option ToolCall × Option String × Nat :=
  match jsonParse (trimChars s) with
  | none => (none, some (logFailMsg s), c)
  | some Json.null => (none, some (logFailMsg s), c)
  | some j =>
    match getProp j "name" with
    | some nv =>
      if truthy nv then
        (some { id := "call_" ++ natToString (c + 1), type := "function",
                name := nv, arguments := stringifyJson s.length (argsOf j) },
         none, c + 1)
      else (none, none, c)
    | none => (none, none, c)

/-- The `while (re.exec(text))` loop, fuelled: repeatedly take the next
    opening tag, the first closing tag after it, decode the enclosed
    span, and continue after the closing tag. -/
def scanCallsF : Nat → Nat → List Char → List ToolCall × List String × Nat
  | 0, c, _ => ([], [], c)
  | f+1, c, l =>
    match findSub openTag l with
    | none => ([], [], c)
    | some (_, rest) =>
      match findSub closeTag rest with
      | none => ([], [], c)
      | some (content, after) =>
        let d := decodeSpan c content
        let r := scanCallsF f d.2.2 after
        (d.1.toList ++ r.1, d.2.1.toList ++ r.2.1, r.2.2)

/-- The global span-removing `replace`, fuelled. -/
def removeSpansF : Nat → List Char → List Char
  | 0, l => l
  | f+1, l =>
    match findSub openTag l with
    | none => l
    | some (before, rest) =>
      match findSub closeTag rest with
      | none => l
      | some (_, after) => before ++ removeSpansF f after

/-- The result record of `parseToolCalls`, with the emitted log lines
    and the final id counter made explicit. -/
structure ParsedReply where
  toolCalls : List ToolCall
  contentText : String
  logs : List String
  counter : Nat

/-- `parseToolCalls` (src/unnamed/part_001:121).  `c` is the value of
    the global `callCounter` on entry. -/
def parseToolCalls (c : Nat) (text : String) : ParsedReply :=
  let fuel := text.data.length + 1
  let r := scanCallsF fuel c text.data
  { toolCalls := r.1,
    contentText := String.mk (trimChars (removeSpansF fuel text.data)),
    logs := r.2.1,
    counter := r.2.2 }

/-! ### Specification-side span decomposition

`decomposeF` splits a text into the delimiter-enclosed spans and the
text outside them, by the same leftmost non-greedy discipline as the
source regexes; `recompose` certifies that the decomposition really is
a decomposition of the input. -/

def decomposeF : Nat → List Char → List (List Char × List Char) × List Char
  | 0, l => ([], l)
  | f+1, l =>
    match findSub openTag l with
    | none => ([], l)
    | some (before, rest) =>
      match findSub closeTag rest with
      | none => ([], l)
      | some (content, after) =>
        let d := decomposeF f after
        ((before, content) :: d.1, d.2)

def decompose (text : String) : List (List Char × List Char) × List Char :=
  decomposeF (text.data.length + 1) text.data

/-- Reassembles outside parts and delimiter-wrapped spans. -/
def recompose (ps : List (List Char × List Char)) (tail : List Char) : List Char :=
  ps.foldr (fun p acc => p.1 ++ openTag ++ p.2 ++ closeTag ++ acc) tail

/-- The text outside all spans, concatenated. -/
def outsideChars (d : List (List Char × List Char) × List Char) : List Char :=
  d.1.foldr (fun p acc => p.1 ++ acc) d.2

/-- A well-formed inline tool-call span: its trimmed content parses as
    a JSON object carrying a usable (truthy) `name` field. -/
def wellFormedSpan (s : List Char) : Bool :=
  match jsonParse (trimChars s) with
  | some (Json.obj fs) =>
    match getField fs "name" with
    | some v => truthy v
    | none => false
  | _ => false

/-- Whether decoding the span logs a parse failure: `JSON.parse`
    throwing, or the decoded value being `null` (whose member access
    throws). -/
def loggedSpan (s : List Char) : Bool :=
  match jsonParse (trimChars s) with
  | none => true
  | some Json.null => true
  | some _ => false

/-- The `name` a well-formed span decodes to. -/
def spanName (s : List Char) : Json :=
  match jsonParse (trimChars s) with
  | some j => (getProp j "name").getD Json.null
  | none => Json.null

/-- The compact re-encoding of the span's `arguments` (defaulted to
    `{}`). -/
def spanArgs (s : List Char) : String :=
  match jsonParse (trimChars s) with
  | some j => stringifyJson s.length (argsOf j)
  | none => ""

/-- Folding the span decoder over a span list: the reference shape the
    scan loop is proved equal to. -/
def spanFold : Nat → List (List Char) → List ToolCall × List String × Nat
  | c, [] => ([], [], c)
  | c, s :: rest =>
    let d := decodeSpan c s
    let r := spanFold d.2.2 rest
    (d.1.toList ++ r.1, d.2.1.toList ++ r.2.1, r.2.2)

theorem findSub_some_eq (pat : List Char) :
    ∀ l b a, findSub pat l = some (b, a) → l = b ++ pat ++ a := by
  intro l
  induction l with
  | nil =>
    intro b a h
    rw [findSub] at h
    by_cases hp : pat.isPrefixOf ([] : List Char)
    · rw [if_pos hp] at h
      have hpl : pat = [] := by
        have h2 := List.isPrefixOf_iff_prefix.mp hp
        simpa using h2
      simp only [List.drop_nil, Option.some.injEq, Prod.mk.injEq] at h
      obtain ⟨hb, ha⟩ := h
      rw [← hb, ← ha, hpl]
      rfl
    · rw [if_neg hp] at h
      simp at h
  | cons c cs ih =>
    intro b a h
    rw [findSub] at h
    by_cases hp : pat.isPrefixOf (c :: cs)
    · rw [if_pos hp] at h
      simp only [Option.some.injEq, Prod.mk.injEq] at h
      obtain ⟨hb, ha⟩ := h
      obtain ⟨t, ht⟩ := List.isPrefixOf_iff_prefix.mp hp
      have hd : (c :: cs).drop pat.length = t := by
        rw [← ht, List.drop_left]
      rw [← hb, ← ha, hd, List.nil_append, ← ht]
    · rw [if_neg hp] at h
      cases hf : findSub pat cs with
      | none => rw [hf] at h; simp at h
      | some p =>
        obtain ⟨b', a'⟩ := p
        rw [hf] at h
        simp only [Option.map_some', Option.some.injEq, Prod.mk.injEq] at h
        obtain ⟨hb, ha⟩ := h
        have hcs := ih b' a' hf
        rw [← hb, ← ha]
        simp [hcs]

theorem scanCallsF_eq_spanFold :
    ∀ f c l, scanCallsF f c l = spanFold c ((decomposeF f l).1.map Prod.snd) := by
  intro f
  induction f with
  | zero => intro c l; simp [scanCallsF, decomposeF, spanFold]
  | succ f ih =>
    intro c l
    rw [scanCallsF, decomposeF]
    cases h1 : findSub openTag l with
    | none => simp only [h1]; simp [spanFold]
    | some p1 =>
      obtain ⟨before, rest⟩ := p1
      simp only [h1]
      cases h2 : findSub closeTag rest with
      | none => simp only [h2]; simp [spanFold]
      | some p2 =>
        obtain ⟨content, after⟩ := p2
        simp only [h2, List.map_cons, spanFold, ih]

theorem removeSpansF_eq_outside :
    ∀ f l, removeSpansF f l = outsideChars (decomposeF f l) := by
  intro f
  induction f with
  | zero => intro l; simp [removeSpansF, decomposeF, outsideChars]
  | succ f ih =>
    intro l
    rw [removeSpansF, decomposeF]
    cases h1 : findSub openTag l with
    | none => simp only [h1]; simp [outsideChars]
    | some p1 =>
      obtain ⟨before, rest⟩ := p1
      simp only [h1]
      cases h2 : findSub closeTag rest with
      | none => simp only [h2]; simp [outsideChars]
      | some p2 =>
        obtain ⟨content, after⟩ := p2
        simp only [h2, outsideChars, List.foldr_cons]
        rw [ih]
        rfl

theorem decomposeF_recompose :
    ∀ f l, recompose (decomposeF f l).1 (decomposeF f l).2 = l := by
  intro f
  induction f with
  | zero => intro l; simp [decomposeF, recompose]
  | succ f ih =>
    intro l
    rw [decomposeF]
    cases h1 : findSub openTag l with
    | none => simp only [h1]; simp [recompose]
    | some p1 =>
      obtain ⟨before, rest⟩ := p1
      simp only [h1]
      cases h2 : findSub closeTag rest with
      | none => simp only [h2]; simp [recompose]
      | some p2 =>
        obtain ⟨content, after⟩ := p2
        simp only [h2]
        have e1 := findSub_some_eq openTag l before rest h1
        have e2 := findSub_some_eq closeTag rest content after h2
        have ihr := ih after
        unfold recompose at ihr
        simp only [recompose, List.foldr_cons]
        rw [ihr, e1, e2]
        simp

theorem decodeSpan_wf (c : Nat) (s : List Char) (h : wellFormedSpan s = true) :
    decodeSpan c s =
      (some { id := "call_" ++ natToString (c + 1), type := "function",
              name := spanName s, arguments := spanArgs s }, none, c + 1) := by
  unfold wellFormedSpan at h
  unfold decodeSpan spanName spanArgs
  cases h1 : jsonParse (trimChars s) with
  | none => rw [h1] at h; simp at h
  | some j =>
    rw [h1] at h
    simp only [h1]
    cases j with
    | obj fs =>
      simp only [getProp] at h ⊢
      cases h2 : getField fs "name" with
      | none => rw [h2] at h; simp at h
      | some v =>
        rw [h2] at h
        have hv : truthy v = true := by simpa using h
        simp only [h2, Option.getD_some]
        simp [hv]
    | null => simp at h
    | bool b => simp at h
    | num n => simp at h
    | str t => simp at h
    | arr xs => simp at h

theorem decodeSpan_nwf (c : Nat) (s : List Char) (h : wellFormedSpan s = false) :
    decodeSpan c s =
      (none, if loggedSpan s then some (logFailMsg s) else none, c) := by
  unfold wellFormedSpan at h
  unfold decodeSpan loggedSpan
  cases h1 : jsonParse (trimChars s) with
  | none => simp
  | some j =>
    rw [h1] at h
    cases j with
    | obj fs =>
      simp only [getProp] at h ⊢
      cases h2 : getField fs "name" with
      | none => simp
      | some v =>
        rw [h2] at h
        have hv : truthy v = false := by simpa using h
        simp [hv]
    | null => simp
    | bool b => simp [getProp]
    | num n => simp [getProp]
    | str t => simp [getProp]
    | arr xs => simp [getProp]

theorem spanFold_calls_length :
    ∀ ss c, (spanFold c ss).1.length = ss.countP (fun s => wellFormedSpan s) := by
  intro ss
  induction ss with
  | nil => intro c; simp [spanFold]
  | cons s rest ih =>
    intro c
    rw [spanFold]
    cases hwf : wellFormedSpan s with
    | true => simp [decodeSpan_wf c s hwf, List.countP_cons, hwf, ih]
    | false => simp [decodeSpan_nwf c s hwf, List.countP_cons, hwf, ih]

theorem spanFold_calls_parts :
    ∀ ss c, (spanFold c ss).1.map (fun tc => (tc.name, tc.arguments)) =
      (ss.filter (fun s => wellFormedSpan s)).map (fun s => (spanName s, spanArgs s)) := by
  intro ss
  induction ss with
  | nil => intro c; simp [spanFold]
  | cons s rest ih =>
    intro c
    rw [spanFold]
    cases hwf : wellFormedSpan s with
    | true => simp [decodeSpan_wf c s hwf, List.filter_cons, hwf, ih]
    | false => simp [decodeSpan_nwf c s hwf, List.filter_cons, hwf, ih]

theorem spanFold_calls_type :
    ∀ ss c, ∀ tc ∈ (spanFold c ss).1, tc.type = "function" := by
  intro ss
  induction ss with
  | nil => intro c tc h; simp [spanFold] at h
  | cons s rest ih =>
    intro c tc h
    rw [spanFold] at h
    cases hwf : wellFormedSpan s with
    | true =>
      rw [decodeSpan_wf c s hwf] at h
      simp only [Option.toList_some, List.cons_append, List.nil_append,
        List.mem_cons] at h
      rcases h with h | h
      · rw [h]
      · exact ih _ tc h
    | false =>
      rw [decodeSpan_nwf c s hwf] at h
      simp only [Option.toList_none, List.nil_append] at h
      exact ih _ tc h

theorem spanFold_calls_ids :
    ∀ ss c, (spanFold c ss).1.map ToolCall.id =
      (List.range (ss.countP (fun s => wellFormedSpan s))).map
        (fun i => "call_" ++ natToString (c + 1 + i)) := by
  intro ss
  induction ss with
  | nil => intro c; simp [spanFold]
  | cons s rest ih =>
    intro c
    rw [spanFold]
    cases hwf : wellFormedSpan s with
    | true =>
      simp only [decodeSpan_wf c s hwf, Option.toList_some, List.cons_append,
        List.nil_append, List.map_cons, List.countP_cons, hwf, if_true]
      rw [ih]
      rw [List.range_succ_eq_map, List.map_cons, List.map_map]
      congr 1
      apply List.map_congr_left
      intro a ha
      simp only [Function.comp_apply]
      have he : c + 1 + (a + 1) = c + 1 + 1 + a := by omega
      rw [he]
    | false =>
      simp only [decodeSpan_nwf c s hwf, Option.toList_none, List.nil_append,
        List.countP_cons, hwf]
      rw [ih]
      simp

theorem spanFold_logs :
    ∀ ss c, (spanFold c ss).2.1 =
      (ss.filter (fun s => loggedSpan s)).map logFailMsg := by
  intro ss
  induction ss with
  | nil => intro c; simp [spanFold]
  | cons s rest ih =>
    intro c
    rw [spanFold]
    cases hwf : wellFormedSpan s with
    | true =>
      have hl : loggedSpan s = false := by
        unfold wellFormedSpan at hwf
        unfold loggedSpan
        cases h1 : jsonParse (trimChars s) with
        | none => rw [h1] at hwf; simp at hwf
        | some j => rw [h1] at hwf; cases j <;> simp_all
      simp [decodeSpan_wf c s hwf, List.filter_cons, hl, ih]
    | false =>
      rw [decodeSpan_nwf c s hwf]
      cases hl : loggedSpan s with
      | true => simp [List.filter_cons, hl, ih]
      | false => simp [List.filter_cons, hl, ih]

theorem mkCallId_inj (c0 : Nat) :
    Function.Injective (fun i : Nat => "call_" ++ natToString (c0 + 1 + i)) := by
  intro a b h
  have h2 := natToString_inj (string_append_left_cancel _ _ _ h)
  omega

/-- Claim C1: for every agent reply text containing exactly N well-formed
inline tool-call spans (delimiter-enclosed JSON objects with a usable
`name` field) and M malformed ones, `parseToolCalls` returns exactly N
tool calls, in document order, each typed `function`, with freshly
generated pairwise-distinct ids continuing the entry counter, and with
the arguments re-encoded as a compact JSON string; the residual content
equals the input text with all N+M delimiter-enclosed spans removed and
trimmed (the decomposition conjunct certifies the spans really tile the
input), and a decode failure never aborts the scan (the theorem holds
with no restriction on the malformed spans). -/
theorem claimC1 (text : String) (c0 : Nat) :
    text.data = recompose (decompose text).1 (decompose text).2 ∧
    (parseToolCalls c0 text).toolCalls.length =
      ((decompose text).1.map Prod.snd).countP (fun s => wellFormedSpan s) ∧
    (parseToolCalls c0 text).toolCalls.map (fun tc => (tc.name, tc.arguments)) =
      (((decompose text).1.map Prod.snd).filter (fun s => wellFormedSpan s)).map
        (fun s => (spanName s, spanArgs s)) ∧
    (∀ tc ∈ (parseToolCalls c0 text).toolCalls, tc.type = "function") ∧
    (parseToolCalls c0 text).toolCalls.map ToolCall.id =
      (List.range (((decompose text).1.map Prod.snd).countP (fun s => wellFormedSpan s))).map
        (fun i => "call_" ++ natToString (c0 + 1 + i)) ∧
    ((parseToolCalls c0 text).toolCalls.map ToolCall.id).Nodup ∧
    (parseToolCalls c0 text).contentText =
      String.mk (trimChars (outsideChars (decompose text))) := by
  have hcalls : (parseToolCalls c0 text).toolCalls =
      (spanFold c0 ((decompose text).1.map Prod.snd)).1 := by
    show (scanCallsF (text.data.length + 1) c0 text.data).1 = _
    rw [scanCallsF_eq_spanFold]
    rfl
  refine ⟨(decomposeF_recompose _ _).symm, ?_, ?_, ?_, ?_, ?_, ?_⟩
  · rw [hcalls, spanFold_calls_length]
  · rw [hcalls, spanFold_calls_parts]
  · rw [hcalls]; exact spanFold_calls_type _ c0
  · rw [hcalls, spanFold_calls_ids]
  · rw [hcalls, spanFold_calls_ids]
    exact (List.nodup_range _).map (mkCallId_inj c0)
  · show String.mk (trimChars (removeSpansF (text.data.length + 1) text.data)) = _
    rw [removeSpansF_eq_outside]
    rfl

/-! ## MessageNormalizer — stripPrefix (src/unnamed/part_001, lines 31-34)

```
t.replace(/^\[(WhatsApp|Telegram|Discord|Slack|Signal)[^\]]*\]\s*/i, '')
 .replace(/\[message_id:[^\]]+\]\s*/gi, '').trim()
```
One anchored, non-global platform-prefix removal; one global
message-id-tag removal; one trim. -/

/-- Case-insensitive literal prefix match, returning the rest. -/
def ciPrefixMatch : List Char → List Char → Option (List Char)
  | [], l => some l
  | _ :: _, [] => none
  | p :: ps, c :: cs => if p.toLower == c.toLower then ciPrefixMatch ps cs else none

/-- The platform names of the alternation, in source order. -/
def platformNames : List (List Char) :=
  ["whatsapp".data, "telegram".data, "discord".data, "slack".data, "signal".data]

/-- Matches `\[NAME[^\]]*\]\s*` (or `[^\]]+` when `allowEmpty` is
    false) at the start of `l`, case-insensitively, returning what
    follows. -/
def matchPlatformTag (allowEmpty : Bool) (name : List Char) (l : List Char) :
    Option (List Char) :=
  match l with
  | '[' :: r =>
    match ciPrefixMatch name r with
    | none => none
    | some r2 =>
      let body := r2.takeWhile (fun c => c != ']')
      let rest := r2.drop body.length
      if !allowEmpty && body.isEmpty then none
      else
        match rest with
        | ']' :: r3 => some (r3.dropWhile isWsChar)
        | _ => none
  | _ => none

/-- The anchored platform-alternation replace of part_001 (`[^\]]*`,
    one pass, first alternative wins). -/
def stripPlatformAlt (l : List Char) : List Char :=
  match platformNames.findSome? (fun nm => matchPlatformTag true nm l) with
  | some rest => rest
  | none => l

/-- Matches `\[message_id:[^\]]+\]\s*` at the start of `l`
    (case-insensitively, `gi`). -/
def matchMessageIdTag (l : List Char) : Option (List Char) :=
  match l with
  | '[' :: r =>
    match ciPrefixMatch "message_id:".data r with
    | none => none
    | some r2 =>
      let body := r2.takeWhile (fun c => c != ']')
      let rest := r2.drop body.length
      if body.isEmpty then none
      else
        match rest with
        | ']' :: r3 => some (r3.dropWhile isWsChar)
        | _ => none
  | _ => none

/-- The global message-id replace: leftmost matches removed, scanning
    resuming after each match, fuelled. -/
def stripMessageIdsF : Nat → List Char → List Char
  | 0, l => l
  | _+1, [] => []
  | f+1, c :: cs =>
    match matchMessageIdTag (c :: cs) with
    | some rest => stripMessageIdsF f rest
    | none => c :: stripMessageIdsF f cs

/-- `stripPrefix` of src/unnamed/part_001:31. -/
def stripPrefixJS (t : String) : String :=
  String.mk (trimChars (stripMessageIdsF (t.data.length + 1) (stripPlatformAlt t.data)))

/-- Whether a platform tag matches at the start (the first replace
    would fire). -/
def hasPlatformTag (l : List Char) : Bool :=
  (platformNames.findSome? (fun nm => matchPlatformTag true nm l)).isSome

/-- Whether a message-id tag matches anywhere (the second replace would
    fire). -/
def hasMessageIdTag : List Char → Bool
  | [] => false
  | c :: cs => (matchMessageIdTag (c :: cs)).isSome || hasMessageIdTag cs

theorem dropWhile_idem (p : Char → Bool) (l : List Char) :
    (l.dropWhile p).dropWhile p = l.dropWhile p := by
  induction l with
  | nil => rfl
  | cons c cs ih =>
    rw [List.dropWhile_cons]
    by_cases h : p c
    · simp [h, ih]
    · simp [h, List.dropWhile_cons]

/-- Right trim, as the second half of `trimChars`. -/
def trimRightWs (l : List Char) : List Char := (l.reverse.dropWhile isWsChar).reverse

/-- Left trim, as the first half of `trimChars`. -/
def trimLeftWs (l : List Char) : List Char := l.dropWhile isWsChar

theorem trimRightWs_cons (c : Char) (cs : List Char)
    (h : isWsChar c = false ∨ ¬ (cs.reverse.dropWhile isWsChar).isEmpty) :
    trimRightWs (c :: cs) = c :: trimRightWs cs := by
  unfold trimRightWs
  rw [List.reverse_cons, List.dropWhile_append]
  rcases h with h | h
  · by_cases he : (cs.reverse.dropWhile isWsChar).isEmpty
    · simp only [he, if_true]
      simp only [List.dropWhile_cons, h]
      simp only [List.isEmpty_iff] at he
      simp [he]
    · simp only [he, if_false, List.reverse_append]
      simp
  · simp only [if_neg h, List.reverse_append]
    simp

theorem trimLeftRightWs_comm (x : List Char) :
    trimLeftWs (trimRightWs x) = trimRightWs (trimLeftWs x) := by
  induction x with
  | nil => rfl
  | cons c cs ih =>
    by_cases hc : isWsChar c
    · by_cases he : (cs.reverse.dropWhile isWsChar).isEmpty
      · have hall : ∀ a ∈ cs.reverse, isWsChar a := by
          rw [← List.dropWhile_eq_nil_iff]
          simpa using he
        have hcs : cs.dropWhile isWsChar = [] := by
          rw [List.dropWhile_eq_nil_iff]
          intro a ha
          exact hall a (by simpa using ha)
        have h1 : trimRightWs (c :: cs) = [] := by
          unfold trimRightWs
          rw [List.reverse_cons, List.dropWhile_append]
          simp only [he, if_true]
          simp [List.dropWhile_cons, hc]
        have h2 : trimLeftWs (c :: cs) = [] := by
          unfold trimLeftWs
          simp [List.dropWhile_cons, hc, hcs]
        rw [h1, h2]
        rfl
      · rw [trimRightWs_cons c cs (Or.inr he)]
        have h3 : trimLeftWs (c :: trimRightWs cs) = trimLeftWs (trimRightWs cs) := by
          unfold trimLeftWs
          simp [List.dropWhile_cons, hc]
        have h4 : trimLeftWs (c :: cs) = trimLeftWs cs := by
          unfold trimLeftWs
          simp [List.dropWhile_cons, hc]
        rw [h3, h4, ih]
    · rw [trimRightWs_cons c cs (Or.inl (by simpa using hc))]
      have h3 : trimLeftWs (c :: trimRightWs cs) = c :: trimRightWs cs := by
        unfold trimLeftWs
        simp [List.dropWhile_cons, hc]
      have h4 : trimLeftWs (c :: cs) = c :: cs := by
        unfold trimLeftWs
        simp [List.dropWhile_cons, hc]
      rw [h3, h4]
      exact (trimRightWs_cons c cs (Or.inl (by simpa using hc))).symm

theorem trimChars_eq (l : List Char) : trimChars l = trimRightWs (trimLeftWs l) := rfl

theorem trimChars_idem (l : List Char) : trimChars (trimChars l) = trimChars l := by
  rw [trimChars_eq, trimChars_eq, trimLeftRightWs_comm (trimLeftWs l)]
  unfold trimLeftWs trimRightWs
  rw [dropWhile_idem, List.reverse_reverse, dropWhile_idem]

theorem stripPlatformAlt_of_none (l : List Char) (h : hasPlatformTag l = false) :
    stripPlatformAlt l = l := by
  unfold hasPlatformTag at h
  unfold stripPlatformAlt
  cases hf : platformNames.findSome? (fun nm => matchPlatformTag true nm l) with
  | none => rfl
  | some r => rw [hf] at h; simp at h

theorem stripMessageIdsF_of_none :
    ∀ f l, hasMessageIdTag l = false → stripMessageIdsF f l = l := by
  intro f
  induction f with
  | zero => intro l _; rfl
  | succ f ih =>
    intro l h
    cases l with
    | nil => rfl
    | cons c cs =>
      rw [hasMessageIdTag] at h
      simp only [Bool.or_eq_false_iff] at h
      rw [stripMessageIdsF]
      cases hm : matchMessageIdTag (c :: cs) with
      | some r => rw [hm] at h; simp at h
      | none => rw [ih cs h.2]

/-- Counterexample to claim C4 as stated: with two stacked platform
    prefixes only the first is removed per pass, so re-applying the
    stripping function changes its output again. -/
theorem claimC4_cex :
    stripPrefixJS "[WhatsApp 1][WhatsApp 2] hi" = "[WhatsApp 2] hi" ∧
    stripPrefixJS (stripPrefixJS "[WhatsApp 1][WhatsApp 2] hi") ≠
      stripPrefixJS "[WhatsApp 1][WhatsApp 2] hi" :=
  ⟨rfl, by decide⟩

/-- Claim C4 (amended): the platform-prefix replace is anchored and
    non-global, so one application removes at most one leading platform
    prefix; stripping is idempotent exactly when its output no longer
    begins with a platform prefix and contains no message-id tag (so
    not for stacked bracketed platform prefixes, where each pass peels
    one layer). -/
theorem claimC4_amended (t : String)
    (hp : hasPlatformTag (stripPrefixJS t).data = false)
    (hm : hasMessageIdTag (stripPrefixJS t).data = false) :
    stripPrefixJS (stripPrefixJS t) = stripPrefixJS t := by
  unfold stripPrefixJS at hp hm ⊢
  rw [stripPlatformAlt_of_none _ hp, stripMessageIdsF_of_none _ _ hm]
  rw [trimChars_idem]

/-- Witness for the amended C4 at a concrete single-prefix input. -/
theorem claimC4_amended_witness :
    hasPlatformTag (stripPrefixJS "[WhatsApp +1] fix it").data = false ∧
    hasMessageIdTag (stripPrefixJS "[WhatsApp +1] fix it").data = false ∧
    stripPrefixJS (stripPrefixJS "[WhatsApp +1] fix it") =
      stripPrefixJS "[WhatsApp +1] fix it" :=
  ⟨rfl, rfl, claimC4_amended "[WhatsApp +1] fix it" rfl rfl⟩

/-- Counterexample to claim C10 as stated: the span content `null`
    parses as valid JSON and has no `name` field, yields no ToolCall and
    is removed from the residual, but it IS logged as a parse failure,
    because the member access `parsed.name` throws on `null` and lands
    in the same catch branch as a JSON parse error. -/
theorem claimC10_cex :
    jsonParse (trimChars "null".data) = some Json.null ∧
    (parseToolCalls 0 "<tool_call>null</tool_call>ok").toolCalls = [] ∧
    (parseToolCalls 0 "<tool_call>null</tool_call>ok").contentText = "ok" ∧
    (parseToolCalls 0 "<tool_call>null</tool_call>ok").logs =
      ["Failed to parse tool_call: null"] :=
  ⟨rfl, rfl, rfl, rfl⟩

/-- Claim C10 (amended): a delimiter-enclosed span whose content parses
    as valid JSON but lacks a `name` field yields no ToolCall and
    leaves the id counter unchanged, and is skipped without a log entry
    unless the decoded value is the JSON literal `null`, whose member
    access throws and is logged as a parse failure; the span is in all
    cases removed from the residual content, which strips every
    delimiter-enclosed span regardless of its decode outcome (the log
    stream records exactly the spans that fail to parse or decode to
    `null`). -/
theorem claimC10_amended (c0 : Nat) (text : String) (s : List Char) (j : Json)
    (hp : jsonParse (trimChars s) = some j)
    (hn : getProp j "name" = none) :
    (decodeSpan c0 s).1 = none ∧
    (decodeSpan c0 s).2.2 = c0 ∧
    ((decodeSpan c0 s).2.1 = none ↔ j ≠ Json.null) ∧
    (parseToolCalls c0 text).contentText =
      String.mk (trimChars (outsideChars (decompose text))) ∧
    (parseToolCalls c0 text).logs =
      (((decompose text).1.map Prod.snd).filter (fun s => loggedSpan s)).map logFailMsg := by
  have hresid : (parseToolCalls c0 text).contentText =
      String.mk (trimChars (outsideChars (decompose text))) := by
    show String.mk (trimChars (removeSpansF (text.data.length + 1) text.data)) = _
    rw [removeSpansF_eq_outside]
    rfl
  have hlogs : (parseToolCalls c0 text).logs =
      (((decompose text).1.map Prod.snd).filter (fun s => loggedSpan s)).map logFailMsg := by
    show (scanCallsF (text.data.length + 1) c0 text.data).2.1 = _
    rw [scanCallsF_eq_spanFold, spanFold_logs]
    rfl
  unfold decodeSpan
  rw [hp]
  cases j with
  | null => refine ⟨rfl, rfl, ?_, hresid, hlogs⟩; simp
  | obj fs =>
    simp only [getProp] at hn
    refine ⟨?_, ?_, ?_, hresid, hlogs⟩ <;> simp [getProp, hn]
  | bool b => refine ⟨?_, ?_, ?_, hresid, hlogs⟩ <;> simp [getProp]
  | num n => refine ⟨?_, ?_, ?_, hresid, hlogs⟩ <;> simp [getProp]
  | str t2 => refine ⟨?_, ?_, ?_, hresid, hlogs⟩ <;> simp [getProp]
  | arr xs => refine ⟨?_, ?_, ?_, hresid, hlogs⟩ <;> simp [getProp]

/-- Witness for the amended C10 at a concrete numeric span. -/
theorem claimC10_amended_witness :
    (decodeSpan 0 "42".data).1 = none ∧
    (decodeSpan 0 "42".data).2.2 = 0 ∧
    ((decodeSpan 0 "42".data).2.1 = none ↔ Json.num 42 ≠ Json.null) ∧
    (parseToolCalls 0 "<tool_call>42</tool_call>hi").contentText =
      String.mk (trimChars (outsideChars (decompose "<tool_call>42</tool_call>hi"))) ∧
    (parseToolCalls 0 "<tool_call>42</tool_call>hi").logs =
      (((decompose "<tool_call>42</tool_call>hi").1.map Prod.snd).filter
        (fun s => loggedSpan s)).map logFailMsg :=
  claimC10_amended 0 "<tool_call>42</tool_call>hi" "42".data (Json.num 42) rfl rfl

/-! ## Model resolution — resolveModel (src/unnamed/part_001, lines 188-198) -/

/-- Substring containment, JavaScript `String.prototype.includes`. -/
def containsSub (pat l : List Char) : Bool := (findSub pat l).isSome

def lowerStr (s : String) : String := String.mk (lowerChars s.data)

/-- The two exact aliases mapped to the configured default. -/
def isCodeAlias (low : String) : Bool :=
  low == "claude-code" || low == "claude-code/claude-code"

/-- `resolveModel`; `defModel` is the configured `CLAUDE_MODEL`
    default, the returned flag records whether the unknown-model miss
    was logged.  An empty string stands for a missing `model` field
    (both are falsy). -/
def resolveModel (defModel : String) (requested : String) : String × Bool :=
  if requested = "" then (defModel, false)
  else
    let low := lowerStr requested
    if isCodeAlias low then (defModel, false)
    else if containsSub "opus".data low.data then ("claude-opus-4-6[1m]", false)
    else if containsSub "sonnet".data low.data then ("sonnet", false)
    else if containsSub "haiku".data low.data then ("haiku", false)
    else if "claude-".data.isPrefixOf low.data then (requested, false)
    else (defModel, true)

/-- Counterexample to claim C7 as stated: a vendor-prefixed name that
    also contains a tier substring does NOT pass through exactly — the
    tier substring checks run before the `claude-` pass-through. -/
theorem claimC7_cex :
    "claude-".data.isPrefixOf (lowerStr "claude-3-opus").data = true ∧
    (resolveModel "claude-opus-4-6[1m]" "claude-3-opus").1 = "claude-opus-4-6[1m]" ∧
    (resolveModel "claude-opus-4-6[1m]" "claude-3-opus").1 ≠ "claude-3-opus" :=
  ⟨rfl, rfl, by decide⟩

/-- Claim C7 (amended): resolution tries, in order: a missing/empty
    name yields the configured default; the exact aliases `claude-code`
    and `claude-code/claude-code` yield the default; a name containing
    a tier substring (opus, then sonnet, then haiku, case-insensitive)
    yields the mapped CLI name even when the name is vendor-prefixed;
    only then does a name prefixed with the vendor token `claude-` pass
    through exactly; anything else falls back to the default, logging
    the miss (and only that case logs). -/
theorem claimC7_amended (d r : String) :
    (r = "" → resolveModel d r = (d, false)) ∧
    (r ≠ "" → isCodeAlias (lowerStr r) = true → resolveModel d r = (d, false)) ∧
    (r ≠ "" → isCodeAlias (lowerStr r) = false →
      containsSub "opus".data (lowerStr r).data = true →
      resolveModel d r = ("claude-opus-4-6[1m]", false)) ∧
    (r ≠ "" → isCodeAlias (lowerStr r) = false →
      containsSub "opus".data (lowerStr r).data = false →
      containsSub "sonnet".data (lowerStr r).data = true →
      resolveModel d r = ("sonnet", false)) ∧
    (r ≠ "" → isCodeAlias (lowerStr r) = false →
      containsSub "opus".data (lowerStr r).data = false →
      containsSub "sonnet".data (lowerStr r).data = false →
      containsSub "haiku".data (lowerStr r).data = true →
      resolveModel d r = ("haiku", false)) ∧
    (r ≠ "" → isCodeAlias (lowerStr r) = false →
      containsSub "opus".data (lowerStr r).data = false →
      containsSub "sonnet".data (lowerStr r).data = false →
      containsSub "haiku".data (lowerStr r).data = false →
      "claude-".data.isPrefixOf (lowerStr r).data = true →
      resolveModel d r = (r, false)) ∧
    (r ≠ "" → isCodeAlias (lowerStr r) = false →
      containsSub "opus".data (lowerStr r).data = false →
      containsSub "sonnet".data (lowerStr r).data = false →
      containsSub "haiku".data (lowerStr r).data = false →
      "claude-".data.isPrefixOf (lowerStr r).data = false →
      resolveModel d r = (d, true)) := by
  refine ⟨?_, ?_, ?_, ?_, ?_, ?_, ?_⟩
  · intro h; simp [resolveModel, h]
  · intro h1 h2; simp [resolveModel, h1, h2]
  · intro h1 h2 h3; simp [resolveModel, h1, h2, h3]
  · intro h1 h2 h3 h4; simp [resolveModel, h1, h2, h3, h4]
  · intro h1 h2 h3 h4 h5; simp [resolveModel, h1, h2, h3, h4, h5]
  · intro h1 h2 h3 h4 h5 h6; simp [resolveModel, h1, h2, h3, h4, h5, h6]
  · intro h1 h2 h3 h4 h5 h6; simp [resolveModel, h1, h2, h3, h4, h5, h6]

/-- Witness for the amended C7: the genuine pass-through case at
    `claude-2`. -/
theorem claimC7_amended_witness :
    resolveModel "claude-opus-4-6[1m]" "claude-2" = ("claude-2", false) :=
  (claimC7_amended "claude-opus-4-6[1m]" "claude-2").2.2.2.2.2.1
    (by decide) rfl rfl rfl rfl rfl

/-! ## ToolSchemaFormatter — formatToolsForPrompt (src/unnamed/part_001, lines 78-115) -/

/-- One JSON-schema property: `type`/`description` with `""` standing
    for an absent field (both are falsy). -/
structure ParamSpec where
  type : String
  description : String
  deriving DecidableEq

/-- A tool definition after the `tool.function || tool` flattening:
    `description` defaulted to `''`, `parameters?.properties` to the
    empty object, `parameters?.required` to the empty list. -/
structure ToolDef where
  name : String
  description : String
  properties : List (String × ParamSpec)
  required : List String
  deriving DecidableEq

/-- One parameter line: ``    ${k}: ${type}${req}${pdesc}``. -/
def paramLine (required : List String) (p : String × ParamSpec) : String :=
  "    " ++ p.1 ++ ": " ++ (if p.2.type = "" then "any" else p.2.type) ++
  (if required.contains p.1 then " (required)" else "") ++
  (if p.2.description = "" then "" else " — " ++ p.2.description)

/-- JavaScript `Array.prototype.join('\n')`. -/
def joinLines : List String → String
  | [] => ""
  | [x] => x
  | x :: y :: xs => x ++ "\n" ++ joinLines (y :: xs)

/-- The fixed heading and usage-instruction lines the source starts
    with. -/
def toolUsageHeaderLines : List String :=
  ["",
   "## Available Tools",
   "When you want to use a tool, output EXACTLY this format (you may include text before/after):",
   "<tool_call>",
   "\x7b\"name\": \"tool_name\", \"arguments\": \x7b\"param1\": \"value1\"\x7d\x7d",
   "</tool_call>",
   "",
   "You can make multiple tool calls in one response. Each must be in its own <tool_call> block.",
   "IMPORTANT: Only use tools listed below. Output the tool call, then STOP — wait for the result before continuing.",
   ""]

/-- The lines pushed for one tool: heading, optional description,
    optional parameter block (one string holding all parameter lines),
    blank separator. -/
def toolLines (t : ToolDef) : List String :=
  ["### " ++ t.name] ++
  (if t.description = "" then [] else [t.description]) ++
  (if joinLines (t.properties.map (paramLine t.required)) = "" then []
   else ["Parameters:\n" ++ joinLines (t.properties.map (paramLine t.required))]) ++
  [""]

/-- `formatToolsForPrompt`: empty input yields the empty string,
    otherwise all lines joined by newlines. -/
def formatToolsForPrompt (tools : List ToolDef) : String :=
  if tools.isEmpty then ""
  else joinLines (toolUsageHeaderLines ++ (tools.map toolLines).flatten)

/-- Specification-side rendering of one tool section: heading, optional
    description, a `Parameters:` block with one line per property in
    input order, and a blank separator line. -/
def toolSectionLines (t : ToolDef) : List String :=
  ["### " ++ t.name] ++
  (if t.description = "" then [] else [t.description]) ++
  (if t.properties.isEmpty then []
   else "Parameters:" :: t.properties.map (paramLine t.required)) ++
  [""]

def toolSection (t : ToolDef) : String := joinLines (toolSectionLines t)

theorem joinLines_append (a b : List String) (ha : a ≠ []) (hb : b ≠ []) :
    joinLines (a ++ b) = joinLines a ++ "\n" ++ joinLines b := by
  induction a with
  | nil => exact absurd rfl ha
  | cons x xs ih =>
    cases xs with
    | nil =>
      cases b with
      | nil => exact absurd rfl hb
      | cons y ys => simp [joinLines]
    | cons x2 xs2 =>
      have h2 := ih (by simp)
      rw [List.cons_append] at h2
      rw [List.cons_append, List.cons_append, joinLines, h2, joinLines]
      simp [String.append_assoc]

theorem joinLines_cons_ne (x : String) (xs : List String) (hx : 0 < x.length) :
    joinLines (x :: xs) ≠ "" := by
  cases xs with
  | nil =>
    intro he
    rw [joinLines] at he
    rw [he] at hx
    simp at hx
  | cons y ys =>
    intro he
    rw [joinLines] at he
    have hl := congrArg String.length he
    simp [String.length_append] at hl
    omega

theorem paramLine_longer (req : List String) (p : String × ParamSpec) :
    0 < (paramLine req p).length := by
  unfold paramLine
  have h4 : ("    " : String).length = 4 := rfl
  simp only [String.length_append, h4]
  omega

theorem joinLines_pair (a : String) : joinLines [a, ""] = a ++ "\n" := by
  rw [joinLines]
  simp [joinLines]

theorem joinLines_head_block (x : String) (pl : List String) (hpl : pl ≠ []) :
    joinLines ((x :: pl) ++ [""]) = x ++ "\n" ++ joinLines pl ++ "\n" := by
  rw [joinLines_append (x :: pl) [""] (by simp) (by simp)]
  rw [show x :: pl = [x] ++ pl from rfl]
  rw [joinLines_append [x] pl (by simp) hpl]
  simp [joinLines, String.append_assoc]

theorem toolLines_join (t : ToolDef) : joinLines (toolLines t) = toolSection t := by
  unfold toolLines toolSection toolSectionLines
  cases hps : t.properties with
  | nil => simp [joinLines]
  | cons q qs =>
    have hne : joinLines (List.map (paramLine t.required) (q :: qs)) ≠ "" := by
      rw [List.map_cons]
      exact joinLines_cons_ne _ _ (paramLine_longer t.required q)
    rw [if_neg hne, if_neg (show ¬ ((q :: qs).isEmpty = true) by simp)]
    set J : String := joinLines (List.map (paramLine t.required) (q :: qs)) with hJ
    set A : List String := ["### " ++ t.name] ++
      (if t.description = "" then [] else [t.description]) with hA
    have hAne : A ≠ [] := by
      rw [hA]
      cases (if t.description = "" then ([] : List String) else [t.description]) <;> simp
    rw [List.append_assoc A, List.append_assoc A]
    rw [joinLines_append A _ hAne (by simp)]
    rw [joinLines_append A _ hAne (by simp)]
    congr 1
    rw [show (["Parameters:\n" ++ J] ++ [""] : List String) =
        ["Parameters:\n" ++ J, ""] from rfl]
    rw [joinLines_pair, joinLines_head_block _ _ (by simp)]
    rw [← hJ]
    rw [show ("Parameters:" : String) ++ "\n" = "Parameters:\n" from rfl]

theorem joinLines_flatten :
    ∀ ls : List (List String), (∀ x ∈ ls, x ≠ []) →
      joinLines ls.flatten = joinLines (ls.map joinLines) := by
  intro ls
  induction ls with
  | nil => intro _; rfl
  | cons x xs ih =>
    intro h
    cases xs with
    | nil => simp [joinLines]
    | cons y ys =>
      have hx : x ≠ [] := h x (by simp)
      have hflat : (y :: ys).flatten ≠ [] := by
        have hy : y ≠ [] := h y (by simp)
        cases y with
        | nil => exact absurd rfl hy
        | cons z zs => simp
      rw [List.flatten_cons, joinLines_append x (y :: ys).flatten hx hflat,
        ih (fun a ha => h a (by simp [ha]))]
      simp only [List.map_cons]
      rw [joinLines]

/-- Claim C9: the tool-schema formatter yields the empty string for an
    empty tool list (no tool section at all), and otherwise emits the
    fixed heading and usage instruction followed by one section per
    tool in input order — name heading, description when present, and a
    parameter block with one line per property carrying the type, a
    `(required)` marker exactly when the property is in the required
    set (the `paramLine` shape), and the property description. -/
theorem claimC9 :
    formatToolsForPrompt [] = "" ∧
    (∀ ts : List ToolDef, ts ≠ [] →
      formatToolsForPrompt ts =
        joinLines toolUsageHeaderLines ++ "\n" ++ joinLines (ts.map toolSection)) := by
  constructor
  · rfl
  · intro ts hts
    unfold formatToolsForPrompt
    rw [if_neg (by simpa using hts)]
    have hflat : (ts.map toolLines).flatten ≠ [] := by
      cases ts with
      | nil => exact absurd rfl hts
      | cons t ts2 => simp [toolLines]
    rw [joinLines_append _ _ (by simp [toolUsageHeaderLines]) hflat]
    congr 1
    rw [joinLines_flatten _ (by
      intro x hx
      simp only [List.mem_map] at hx
      obtain ⟨t, _, ht⟩ := hx
      rw [← ht]
      simp [toolLines])]
    rw [List.map_map]
    apply congrArg
    apply List.map_congr_left
    intro t _
    simp only [Function.comp_apply]
    exact toolLines_join t

/-- A concrete two-parameter tool definition used by the C9 witness. -/
def sampleTool : ToolDef :=
  { name := "get_weather", description := "Get the weather",
    properties := [("city", { type := "string", description := "City name" }),
                   ("units", { type := "", description := "" })],
    required := ["city"] }

/-- Witness for C9 at a concrete two-parameter tool. -/
theorem claimC9_witness :
    formatToolsForPrompt [sampleTool] =
      joinLines toolUsageHeaderLines ++ "\n" ++ joinLines ([sampleTool].map toolSection) :=
  claimC9.2 [sampleTool] (by decide)

/-! ## ResponseEncoder — sendOK / sendToolCallResponse
(src/unnamed/part_001, lines 316-363) and the handleChat result
dispatch (lines 294-309).

`Date.now()` is captured once per response as `now`; the response id is
`chatcmpl-${now}` and the creation timestamp `Math.floor(now / 1000)`,
shared by every chunk of the response. -/

/-- Serialized form of one structured tool call inside a response. -/
def toolCallJson (tc : ToolCall) : Json :=
  Json.obj [("id", Json.str tc.id), ("type", Json.str tc.type),
            ("function", Json.obj [("name", tc.name), ("arguments", Json.str tc.arguments)])]

/-- One SSE chunk object, fields in source order. -/
def chunkJson (id : String) (t : Nat) (delta : Json) (finish : Json) : Json :=
  Json.obj [("id", Json.str id), ("object", Json.str "chat.completion.chunk"),
            ("created", Json.num t), ("model", Json.str "claude-code"),
            ("choices", Json.arr [Json.obj [("index", Json.num 0), ("delta", delta),
                                            ("finish_reason", finish)]])]

/-- The role/content delta of a leading content chunk. -/
def deltaContent (content : String) : Json :=
  Json.obj [("role", Json.str "assistant"), ("content", Json.str content)]

def usageZero : Json :=
  Json.obj [("prompt_tokens", Json.num 0), ("completion_tokens", Json.num 0),
            ("total_tokens", Json.num 0)]

/-- One non-streaming chat-completion object, fields in source order. -/
def completionJson (id : String) (t : Nat) (message : Json) (finish : String) : Json :=
  Json.obj [("id", Json.str id), ("object", Json.str "chat.completion"),
            ("created", Json.num t), ("model", Json.str "claude-code"),
            ("choices", Json.arr [Json.obj [("index", Json.num 0), ("message", message),
                                            ("finish_reason", Json.str finish)]]),
            ("usage", usageZero)]

/-- One `res.write` on the event stream: a `data: <json>` line or the
    literal `data: [DONE]` sentinel. -/
inductive SseWrite where
  | data (j : Json) : SseWrite
  | doneMark : SseWrite

inductive RespBody where
  | sse (events : List SseWrite) : RespBody
  | json (j : Json) : RespBody

structure HttpResponse where
  status : Nat
  body : RespBody

def sseEvents (r : HttpResponse) : List SseWrite :=
  match r.body with
  | RespBody.sse evs => evs
  | _ => []

def jsonBody (r : HttpResponse) : Json :=
  match r.body with
  | RespBody.json j => j
  | _ => Json.null

/-- `sendOK` (src/unnamed/part_001:316): plain content, finish reason
    `stop`. -/
def sendOK (now : Nat) (content : String) (stream : Bool) : HttpResponse :=
  let id := "chatcmpl-" ++ natToString now
  let t := now / 1000
  if stream then
    { status := 200,
      body := RespBody.sse
        [SseWrite.data (chunkJson id t (deltaContent content) Json.null),
         SseWrite.data (chunkJson id t (Json.obj []) (Json.str "stop")),
         SseWrite.doneMark] }
  else
    { status := 200,
      body := RespBody.json (completionJson id t
        (Json.obj [("role", Json.str "assistant"), ("content", Json.str content)]) "stop") }

/-- `sendToolCallResponse` (src/unnamed/part_001:334): content delta
    only when the residual is truthy, one delta chunk per tool call,
    terminal empty delta with `tool_calls`, sentinel; non-streaming
    message has `content: content || null` and the `tool_calls`
    list. -/
def sendToolCallResponse (now : Nat) (content : String) (toolCalls : List ToolCall)
    (stream : Bool) : HttpResponse :=
  let id := "chatcmpl-" ++ natToString now
  let t := now / 1000
  if stream then
    { status := 200,
      body := RespBody.sse (
        (if content ≠ "" then
          [SseWrite.data (chunkJson id t (deltaContent content) Json.null)]
         else []) ++
        toolCalls.map (fun tc =>
          SseWrite.data (chunkJson id t
            (Json.obj [("tool_calls", Json.arr [toolCallJson tc])]) Json.null)) ++
        [SseWrite.data (chunkJson id t (Json.obj []) (Json.str "tool_calls")),
         SseWrite.doneMark]) }
  else
    { status := 200,
      body := RespBody.json (completionJson id t
        (Json.obj [("role", Json.str "assistant"),
                   ("content", if content ≠ "" then Json.str content else Json.null),
                   ("tool_calls", Json.arr (toolCalls.map toolCallJson))])
        "tool_calls") }

/-- The result dispatch of `handleChat` (src/unnamed/part_001:294-309):
    a successful agent call is parsed for tool calls and encoded; a
    thrown error (timeout or non-zero exit) is delivered through the
    same `sendOK` channel as a `[Error: ...]` content string. -/
def respondToOutcome (now c0 : Nat) (outcome : Except String String) (stream : Bool) :
    HttpResponse :=
  match outcome with
  | Except.ok result =>
    let pr := parseToolCalls c0 result
    if pr.toolCalls.length > 0 then
      sendToolCallResponse now pr.contentText pr.toolCalls stream
    else sendOK now result stream
  | Except.error msg => sendOK now ("[Error: " ++ msg ++ "]") stream

theorem sse_chunk_shape (now : Nat) (content : String) (tcs : List ToolCall) (j : Json)
    (hj : SseWrite.data j ∈ sseEvents (sendToolCallResponse now content tcs true)) :
    ∃ d f, j = chunkJson ("chatcmpl-" ++ natToString now) (now / 1000) d f := by
  have hev : sseEvents (sendToolCallResponse now content tcs true) =
      (if content ≠ "" then
        [SseWrite.data (chunkJson ("chatcmpl-" ++ natToString now) (now / 1000)
          (deltaContent content) Json.null)]
       else []) ++
      tcs.map (fun tc =>
        SseWrite.data (chunkJson ("chatcmpl-" ++ natToString now) (now / 1000)
          (Json.obj [("tool_calls", Json.arr [toolCallJson tc])]) Json.null)) ++
      [SseWrite.data (chunkJson ("chatcmpl-" ++ natToString now) (now / 1000)
          (Json.obj []) (Json.str "tool_calls")),
       SseWrite.doneMark] := rfl
  rw [hev] at hj
  rcases List.mem_append.mp hj with hj12 | hjc
  · rcases List.mem_append.mp hj12 with hj1 | hjm
    · by_cases hcc : content ≠ ""
      · rw [if_pos hcc] at hj1
        have h1 := List.mem_singleton.mp hj1
        injection h1 with h2
        exact ⟨_, _, h2⟩
      · rw [if_neg hcc] at hj1
        simp at hj1
    · rcases List.mem_map.mp hjm with ⟨tc, _, htc⟩
      injection htc with h2
      exact ⟨_, _, h2.symm⟩
  · rcases List.mem_cons.mp hjc with hfin | hrest
    · injection hfin with h2
      exact ⟨_, _, h2⟩
    · rcases List.mem_cons.mp hrest with hdone | hnil
      · simp at hdone
      · simp at hnil

theorem chunkJson_id (id : String) (t : Nat) (delta finish : Json) :
    getProp (chunkJson id t delta finish) "id" = some (Json.str id) := rfl

theorem chunkJson_created (id : String) (t : Nat) (delta finish : Json) :
    getProp (chunkJson id t delta finish) "created" = some (Json.num t) := rfl

/-- Claim C2: streaming a parsed reply with a non-empty tool-call list
    emits exactly: a leading content delta chunk only when the residual
    content is non-empty, then one delta chunk per tool call (each
    carrying exactly one call, in parser order), then one terminal
    empty-delta chunk with finish_reason `tool_calls`, then the literal
    end sentinel — and every chunk of the response carries the same id
    and creation timestamp. -/
theorem claimC2 (now : Nat) (content : String) (tcs : List ToolCall) (h : tcs ≠ []) :
    (sendToolCallResponse now content tcs true).status = 200 ∧
    (sseEvents (sendToolCallResponse now content tcs true)).length =
      (if content = "" then 0 else 1) + tcs.length + 2 ∧
    (sseEvents (sendToolCallResponse now content tcs true)).take
        (if content = "" then 0 else 1) =
      (if content = "" then [] else
        [SseWrite.data (chunkJson ("chatcmpl-" ++ natToString now) (now / 1000)
          (deltaContent content) Json.null)]) ∧
    (sseEvents (sendToolCallResponse now content tcs true)).drop
        (if content = "" then 0 else 1) =
      tcs.map (fun tc =>
        SseWrite.data (chunkJson ("chatcmpl-" ++ natToString now) (now / 1000)
          (Json.obj [("tool_calls", Json.arr [toolCallJson tc])]) Json.null)) ++
      [SseWrite.data (chunkJson ("chatcmpl-" ++ natToString now) (now / 1000)
          (Json.obj []) (Json.str "tool_calls")),
       SseWrite.doneMark] ∧
    (∀ j, SseWrite.data j ∈ sseEvents (sendToolCallResponse now content tcs true) →
      getProp j "id" = some (Json.str ("chatcmpl-" ++ natToString now)) ∧
      getProp j "created" = some (Json.num (now / 1000))) := by
  have hmem : ∀ j, SseWrite.data j ∈ sseEvents (sendToolCallResponse now content tcs true) →
      getProp j "id" = some (Json.str ("chatcmpl-" ++ natToString now)) ∧
      getProp j "created" = some (Json.num (now / 1000)) := by
    intro j hj
    obtain ⟨d, f, rfl⟩ := sse_chunk_shape now content tcs j hj
    exact ⟨chunkJson_id .., chunkJson_created ..⟩
  by_cases hc : content = ""
  · exact ⟨rfl, by simp [sendToolCallResponse, sseEvents, hc] <;> omega,
      by simp [hc], by simp [sendToolCallResponse, sseEvents, hc], hmem⟩
  · exact ⟨rfl, by simp [sendToolCallResponse, sseEvents, hc] <;> omega,
      by simp [sendToolCallResponse, sseEvents, hc],
      by simp [sendToolCallResponse, sseEvents, hc], hmem⟩

/-- A concrete tool call used by the encoder witnesses. -/
def sampleCall : ToolCall :=
  { id := "call_1", type := "function", name := Json.str "get_weather",
    arguments := "\x7b\x7d" }

/-- Witness for C2: the chunk-count conjunct at one call and non-empty
    residual content. -/
theorem claimC2_witness :
    (sseEvents (sendToolCallResponse 1700000000000 "Here" [sampleCall] true)).length =
      (if ("Here" : String) = "" then 0 else 1) + [sampleCall].length + 2 :=
  (claimC2 1700000000000 "Here" [sampleCall] (by simp)).2.1

/-- Claim C3: the non-streaming encoding of a reply with at least one
    tool call is a single 200 chat completion whose assistant message
    has `content` equal to the residual text when non-empty and the
    explicit JSON `null` when empty, whose `tool_calls` list is in
    parser order, and whose finish_reason is `tool_calls`. -/
theorem claimC3 (now : Nat) (content : String) (tcs : List ToolCall) (h : tcs ≠ []) :
    (sendToolCallResponse now content tcs false).status = 200 ∧
    jsonBody (sendToolCallResponse now content tcs false) =
      completionJson ("chatcmpl-" ++ natToString now) (now / 1000)
        (Json.obj [("role", Json.str "assistant"),
                   ("content", if content = "" then Json.null else Json.str content),
                   ("tool_calls", Json.arr (tcs.map toolCallJson))])
        "tool_calls" := by
  constructor
  · rfl
  · by_cases hc : content = "" <;> simp [sendToolCallResponse, jsonBody, hc]

/-- Witness for C3 at an empty residual (explicit null content). -/
theorem claimC3_witness :
    jsonBody (sendToolCallResponse 1700000000000 "" [sampleCall] false) =
      completionJson ("chatcmpl-" ++ natToString 1700000000000) (1700000000000 / 1000)
        (Json.obj [("role", Json.str "assistant"),
                   ("content", if ("" : String) = "" then Json.null else Json.str ""),
                   ("tool_calls", Json.arr ([sampleCall].map toolCallJson))])
        "tool_calls" :=
  (claimC3 1700000000000 "" [sampleCall] (by simp)).2

/-- Claim C8: when the agent invocation fails (timeout or non-zero
    exit), the pipeline answers through the normal `sendOK` channel
    with HTTP 200 — a well-formed chat completion (finish reason
    `stop`) or SSE stream whose content is the single error string
    `[Error: <message>]`; the failure is never surfaced as a
    transport-level error response. -/
theorem claimC8 (now c0 : Nat) (msg : String) :
    respondToOutcome now c0 (Except.error msg) false =
      sendOK now ("[Error: " ++ msg ++ "]") false ∧
    respondToOutcome now c0 (Except.error msg) true =
      sendOK now ("[Error: " ++ msg ++ "]") true ∧
    (respondToOutcome now c0 (Except.error msg) false).status = 200 ∧
    (respondToOutcome now c0 (Except.error msg) true).status = 200 ∧
    jsonBody (respondToOutcome now c0 (Except.error msg) false) =
      completionJson ("chatcmpl-" ++ natToString now) (now / 1000)
        (Json.obj [("role", Json.str "assistant"),
                   ("content", Json.str ("[Error: " ++ msg ++ "]"))]) "stop" ∧
    sseEvents (respondToOutcome now c0 (Except.error msg) true) =
      [SseWrite.data (chunkJson ("chatcmpl-" ++ natToString now) (now / 1000)
          (deltaContent ("[Error: " ++ msg ++ "]")) Json.null),
       SseWrite.data (chunkJson ("chatcmpl-" ++ natToString now) (now / 1000)
          (Json.obj []) (Json.str "stop")),
       SseWrite.doneMark] :=
  ⟨rfl, rfl, rfl, rfl, rfl, rfl⟩

/-! ## Skills — findSkill (src/unnamed/part_001, lines 154-173) and
findMentionedSkill (src/server.js, lines 130-181)

Both lower-case the text, extract a requested name with the patterns
`use\s+(\w+(?:-\w+)*)\s+skill`, `(\w+(?:-\w+)*)\s+skill\s+to` and
`use\s+(\w+(?:-\w+)*)\s+to\b`, build a JavaScript `Map` from four name
variants per skill to the skill, and return the first map entry whose
variant is accepted (equality, the requested name being a prefix of the
variant, or the variant's first four characters being a prefix of the
requested name). -/

structure Skill where
  name : String
  description : String
  location : String
  deriving DecidableEq

/-- The hyphen-stripped variant: every `-` of the name removed. -/
def stripHyphens (s : String) : String := String.mk (s.data.filter (fun c => c != '-'))

/-- The hyphen-to-space variant: every `-` of the name replaced by a
    space. -/
def hyphensToSpaces (s : String) : String :=
  String.mk (s.data.map (fun c => if c == '-' then ' ' else c))

/-- `skill.name.replace('claude-code-', '')`: a string-pattern replace
    removes only the first occurrence. -/
def removeFirstSub (pat l : List Char) : List Char :=
  match findSub pat l with
  | some (b, a) => b ++ a
  | none => l

/-- The four lower-cased name variants, in source order. -/
def skillVariants (sk : Skill) : List String :=
  [lowerStr sk.name,
   lowerStr (stripHyphens sk.name),
   lowerStr (String.mk (removeFirstSub "claude-code-".data sk.name.data)),
   lowerStr (hyphensToSpaces sk.name)]

/-- JavaScript `Map.set`: an existing key keeps its position and takes
    the new value, a fresh key is appended. -/
def jsInsert (m : List (String × Skill)) (k : String) (v : Skill) :
    List (String × Skill) :=
  if m.any (fun p => p.1 == k) then m.map (fun p => if p.1 == k then (k, v) else p)
  else m ++ [(k, v)]

def insertAll (m : List (String × Skill)) (vs : List String) (sk : Skill) :
    List (String × Skill) :=
  vs.foldl (fun m2 v => jsInsert m2 v sk) m

/-- The `skillVariantsMap` built over the catalog in order. -/
def buildVariantMap (skills : List Skill) : List (String × Skill) :=
  skills.foldl (fun m sk => insertAll m (skillVariants sk) sk) []

/-- The acceptance test of the variant loop:
    `variant === requested || variant.startsWith(requested) ||
     requested.startsWith(variant.substring(0, 4))`. -/
def acceptVariant (variant requested : String) : Bool :=
  variant == requested || requested.data.isPrefixOf variant.data ||
  (variant.data.take 4).isPrefixOf requested.data

/-- Iteration over the map in insertion order, returning the first
    accepted entry's skill. -/
def lookupVariant (m : List (String × Skill)) (req : String) : Option Skill :=
  m.findSome? (fun p => if acceptVariant p.1 req then some p.2 else none)

/-! ### The skill-invocation regex patterns -/

/-- `\s+`: at least one whitespace character, returning the rest. -/
def parseWsPlus (l : List Char) : Option (List Char) :=
  let w := l.takeWhile isWsChar
  if w.isEmpty then none else some (l.drop w.length)

/-- `(?:-\w+)*` continuation of a captured hyphenated word, fuelled
    (greedy, no backtracking needed because word chars, `-` and
    whitespace are disjoint). -/
def hyphenLoopF : Nat → List Char → List Char → List Char × List Char
  | 0, acc, l => (acc, l)
  | f+1, acc, l =>
    match l with
    | '-' :: r =>
      let w2 := r.takeWhile isWordChar
      if w2.isEmpty then (acc, '-' :: r)
      else hyphenLoopF f (acc ++ '-' :: w2) (r.drop w2.length)
    | _ => (acc, l)

/-- `(\w+(?:-\w+)*)`: the captured skill name and the rest. -/
def parseHyphenWord (l : List Char) : Option (List Char × List Char) :=
  let w := l.takeWhile isWordChar
  if w.isEmpty then none
  else some (hyphenLoopF (l.length + 1) w (l.drop w.length))

/-- `use\s+(\w+(?:-\w+)*)\s+skill` anchored at this position. -/
def matchP1At (l : List Char) : Option (List Char) :=
  if "use".data.isPrefixOf l then
    match parseWsPlus (l.drop 3) with
    | none => none
    | some l2 =>
      match parseHyphenWord l2 with
      | none => none
      | some (cap, l3) =>
        match parseWsPlus l3 with
        | none => none
        | some l4 => if "skill".data.isPrefixOf l4 then some cap else none
  else none

/-- `(\w+(?:-\w+)*)\s+skill\s+to` anchored at this position. -/
def matchP2At (l : List Char) : Option (List Char) :=
  match parseHyphenWord l with
  | none => none
  | some (cap, l2) =>
    match parseWsPlus l2 with
    | none => none
    | some l3 =>
      if "skill".data.isPrefixOf l3 then
        match parseWsPlus (l3.drop 5) with
        | none => none
        | some l4 => if "to".data.isPrefixOf l4 then some cap else none
      else none

/-- `use\s+(\w+(?:-\w+)*)\s+to\b` anchored at this position. -/
def matchP3At (l : List Char) : Option (List Char) :=
  if "use".data.isPrefixOf l then
    match parseWsPlus (l.drop 3) with
    | none => none
    | some l2 =>
      match parseHyphenWord l2 with
      | none => none
      | some (cap, l3) =>
        match parseWsPlus l3 with
        | none => none
        | some l4 =>
          if "to".data.isPrefixOf l4 then
            match l4.drop 2 with
            | [] => some cap
            | c :: _ => if isWordChar c then none else some cap
          else none
  else none

/-- Leftmost match of an anchored pattern: try every start position
    left to right. -/
def scanFor (m : List Char → Option (List Char)) : List Char → Option (List Char)
  | [] => m []
  | c :: cs =>
    match m (c :: cs) with
    | some r => some r
    | none => scanFor m cs

/-- The requested skill name captured by the pattern chain of
    `findSkill`: pattern 1, else pattern 2, else pattern 3, with the
    capture lower-cased (`m[1].toLowerCase()`). -/
def extractSkillReq (text : String) : Option String :=
  let lower := lowerChars text.data
  match scanFor matchP1At lower with
  | some cap => some (String.mk (lowerChars cap))
  | none =>
    match scanFor matchP2At lower with
    | some cap => some (String.mk (lowerChars cap))
    | none =>
      match scanFor matchP3At lower with
      | some cap => some (String.mk (lowerChars cap))
      | none => none

/-- `findSkill` (src/unnamed/part_001:154). -/
def findSkill (text : String) (skills : List Skill) : Option Skill :=
  match extractSkillReq text with
  | some req => lookupVariant (buildVariantMap skills) req
  | none => none

/-- `findMentionedSkill` (src/server.js:130): patterns 1 and 2 first;
    if they match but no variant is accepted, the `use X to` pattern is
    tried separately. -/
def findMentionedSkill (text : String) (skills : List Skill) : Option Skill :=
  let lower := lowerChars text.data
  let map := buildVariantMap skills
  let first :=
    match
      (match scanFor matchP1At lower with
       | some cap => some cap
       | none => scanFor matchP2At lower) with
    | some cap => lookupVariant map (String.mk (lowerChars cap))
    | none => none
  match first with
  | some sk => some sk
  | none =>
    match scanFor matchP3At lower with
    | some cap => lookupVariant map (String.mk (lowerChars cap))
    | none => none

/-- The first catalog entry, in catalog order, with an accepted
    variant — the behavior the claim describes. -/
def catalogFirst (req : String) (skills : List Skill) : Option Skill :=
  skills.find? (fun sk => (skillVariants sk).any (fun v => acceptVariant v req))

def mapKeys (m : List (String × Skill)) : List String := m.map Prod.fst

theorem jsInsert_keys (m : List (String × Skill)) (k : String) (v : Skill) :
    mapKeys (jsInsert m k v) =
      if m.any (fun p => p.1 == k) then mapKeys m else mapKeys m ++ [k] := by
  unfold jsInsert mapKeys
  cases h : m.any (fun p => p.1 == k) with
  | true =>
    simp only [if_true, List.map_map]
    apply List.map_congr_left
    intro p _
    simp only [Function.comp_apply]
    by_cases hp : p.1 == k
    · simp only [hp, if_true]
      have := eq_of_beq hp
      simp [← this]
    · simp [hp]
  | false => simp

theorem jsInsert_append (m1 m2 : List (String × Skill)) (k : String) (v : Skill)
    (h : ∀ p ∈ m1, p.1 ≠ k) :
    jsInsert (m1 ++ m2) k v = m1 ++ jsInsert m2 k v := by
  have h1 : m1.any (fun p => p.1 == k) = false := by
    rw [List.any_eq_false]
    intro p hp
    simpa using h p hp
  unfold jsInsert
  rw [List.any_append, h1, Bool.false_or]
  cases h2 : m2.any (fun p => p.1 == k) with
  | true =>
    simp only [if_true, List.map_append]
    congr 1
    have hid : ∀ p ∈ m1, (if (p.1 == k) = true then (k, v) else p) = id p := by
      intro p hp
      rw [if_neg (by simpa using h p hp)]
      rfl
    rw [List.map_congr_left hid, List.map_id]
  | false => simp

theorem insertAll_cons (m : List (String × Skill)) (v : String) (vs : List String)
    (sk : Skill) : insertAll m (v :: vs) sk = insertAll (jsInsert m v sk) vs sk := rfl

theorem insertAll_append (vs : List String) (sk : Skill) :
    ∀ m1 m2, (∀ v ∈ vs, ∀ p ∈ m1, p.1 ≠ v) →
      insertAll (m1 ++ m2) vs sk = m1 ++ insertAll m2 vs sk := by
  induction vs with
  | nil => intro m1 m2 _; rfl
  | cons v vs ih =>
    intro m1 m2 h
    rw [insertAll_cons, jsInsert_append m1 m2 v sk (h v (by simp)), insertAll_cons]
    exact ih m1 _ (fun v2 hv2 p hp => h v2 (by simp [hv2]) p hp)

theorem insertAll_keys_mem_iff (sk : Skill) :
    ∀ vs m k2, k2 ∈ mapKeys (insertAll m vs sk) ↔ (k2 ∈ mapKeys m ∨ k2 ∈ vs) := by
  intro vs
  induction vs with
  | nil => intro m k2; simp [insertAll]
  | cons v vs ih =>
    intro m k2
    rw [insertAll_cons, ih]
    rw [jsInsert_keys]
    cases h : m.any (fun p => p.1 == v) with
    | true =>
      have hv : v ∈ mapKeys m := by
        rw [List.any_eq_true] at h
        obtain ⟨p, hp, hpk⟩ := h
        have := eq_of_beq hpk
        rw [← this]
        exact List.mem_map_of_mem Prod.fst hp
      rw [if_pos rfl]
      simp only [List.mem_cons]
      constructor
      · rintro (hk | hk)
        · exact Or.inl hk
        · exact Or.inr (Or.inr hk)
      · rintro (hk | hk | hk)
        · exact Or.inl hk
        · rw [hk]; exact Or.inl hv
        · exact Or.inr hk
    | false =>
      rw [if_neg (by simp)]
      simp only [List.mem_append, List.mem_singleton, List.mem_cons]
      tauto

theorem insertAll_values (sk : Skill) :
    ∀ vs m, (∀ p ∈ m, p.2 = sk) → ∀ p ∈ insertAll m vs sk, p.2 = sk := by
  intro vs
  induction vs with
  | nil => intro m h p hp; exact h p hp
  | cons v vs ih =>
    intro m h p hp
    rw [insertAll_cons] at hp
    refine ih _ ?_ p hp
    intro q hq
    unfold jsInsert at hq
    by_cases hany : m.any (fun p => p.1 == v)
    · rw [if_pos hany] at hq
      obtain ⟨q0, hq0, hq0e⟩ := List.mem_map.mp hq
      by_cases hk : q0.1 == v
      · rw [if_pos hk] at hq0e
        rw [← hq0e]
      · rw [if_neg hk] at hq0e
        rw [← hq0e]
        exact h q0 hq0
    · rw [if_neg hany] at hq
      rcases List.mem_append.mp hq with hq1 | hq2
      · exact h q hq1
      · rw [List.mem_singleton.mp hq2]

theorem buildFold_append :
    ∀ (rest : List Skill) (m1 m2 : List (String × Skill)),
      (∀ sk ∈ rest, ∀ v ∈ skillVariants sk, ∀ p ∈ m1, p.1 ≠ v) →
      rest.foldl (fun m sk => insertAll m (skillVariants sk) sk) (m1 ++ m2) =
        m1 ++ rest.foldl (fun m sk => insertAll m (skillVariants sk) sk) m2 := by
  intro rest
  induction rest with
  | nil => intro m1 m2 _; rfl
  | cons sk rest ih =>
    intro m1 m2 h
    rw [List.foldl_cons, List.foldl_cons]
    rw [insertAll_append (skillVariants sk) sk m1 m2
      (fun v hv p hp => h sk (by simp) v hv p hp)]
    exact ih m1 _ (fun sk2 h2 v hv p hp => h sk2 (by simp [h2]) v hv p hp)

theorem buildVariantMap_cons (sk : Skill) (rest : List Skill)
    (h : ∀ sk2 ∈ rest, ∀ v ∈ skillVariants sk2, v ∉ skillVariants sk) :
    buildVariantMap (sk :: rest) =
      insertAll [] (skillVariants sk) sk ++ buildVariantMap rest := by
  unfold buildVariantMap
  rw [List.foldl_cons]
  rw [show insertAll [] (skillVariants sk) sk =
      insertAll [] (skillVariants sk) sk ++ [] from by simp]
  rw [buildFold_append rest _ []]
  · simp
  · intro sk2 h2 v hv p hp
    intro hpk
    have hkeys : p.1 ∈ mapKeys (insertAll ([] ++ []) (skillVariants sk) sk) := by
      simp only [List.append_nil] at hp ⊢
      exact List.mem_map_of_mem Prod.fst hp
    rw [insertAll_keys_mem_iff] at hkeys
    rcases hkeys with hk | hk
    · simp [mapKeys] at hk
    · exact h sk2 h2 v hv (hpk ▸ hk)

theorem lookupVariant_append (m1 m2 : List (String × Skill)) (req : String) :
    lookupVariant (m1 ++ m2) req =
      match lookupVariant m1 req with
      | some sk => some sk
      | none => lookupVariant m2 req := by
  induction m1 with
  | nil => rfl
  | cons p m1 ih =>
    unfold lookupVariant at ih ⊢
    rw [List.cons_append, List.findSome?_cons, List.findSome?_cons]
    cases hacc : acceptVariant p.1 req with
    | true => simp [hacc]
    | false => simpa [hacc] using ih

theorem lookupVariant_const (req : String) (sk : Skill) :
    ∀ m, (∀ p ∈ m, p.2 = sk) →
      lookupVariant m req =
        if m.any (fun p => acceptVariant p.1 req) then some sk else none := by
  intro m
  induction m with
  | nil => intro _; rfl
  | cons p m ih =>
    intro h
    unfold lookupVariant
    rw [List.findSome?_cons]
    cases hacc : acceptVariant p.1 req with
    | true =>
      simp [List.any_cons, h p (by simp)]
      exact Or.inl hacc
    | false =>
      simp only [List.any_cons, hacc, Bool.false_or]
      simpa [lookupVariant, hacc] using ih (fun q hq => h q (by simp [hq]))

theorem insertAll_any_key (vs : List String) (sk : Skill) (req : String) :
    (insertAll [] vs sk).any (fun p => acceptVariant p.1 req) =
      vs.any (fun v => acceptVariant v req) := by
  have h1 : ∀ m : List (String × Skill),
      (m.any fun p => acceptVariant p.1 req) =
        ((mapKeys m).any fun k => acceptVariant k req) := by
    intro m
    induction m with
    | nil => rfl
    | cons p m ih =>
      unfold mapKeys at ih ⊢
      rw [List.map_cons, List.any_cons, List.any_cons, ih]
  rw [h1]
  cases hl : (mapKeys (insertAll [] vs sk)).any (fun k => acceptVariant k req) with
  | true =>
    rw [List.any_eq_true] at hl
    obtain ⟨k, hk, hacc⟩ := hl
    rw [insertAll_keys_mem_iff] at hk
    rcases hk with hk | hk
    · simp [mapKeys] at hk
    · exact (List.any_eq_true.mpr ⟨k, hk, hacc⟩).symm
  | false =>
    rw [List.any_eq_false] at hl
    symm
    rw [List.any_eq_false]
    intro v hv
    exact hl v ((insertAll_keys_mem_iff sk vs [] v).mpr (Or.inr hv))

theorem lookupVariant_build (req : String) :
    ∀ skills : List Skill,
      skills.Pairwise (fun a b => ∀ v ∈ skillVariants a, v ∉ skillVariants b) →
      lookupVariant (buildVariantMap skills) req = catalogFirst req skills := by
  intro skills
  induction skills with
  | nil => intro _; rfl
  | cons sk rest ih =>
    intro hdis
    obtain ⟨hhead, htail⟩ := List.pairwise_cons.mp hdis
    rw [buildVariantMap_cons sk rest
      (fun sk2 h2 v hv hvk => hhead sk2 h2 v hvk hv)]
    rw [lookupVariant_append]
    rw [lookupVariant_const req sk _ (insertAll_values sk (skillVariants sk) [] (by simp))]
    rw [insertAll_any_key]
    unfold catalogFirst
    cases hacc : (skillVariants sk).any (fun v => acceptVariant v req) with
    | true => simp [List.find?_cons_of_pos, hacc]
    | false =>
      rw [List.find?_cons_of_neg _ (by simp [hacc])]
      simpa using ih htail

/-- Two skills whose variant tables collide: the hyphen-stripped
    variant of the first equals the exact name of the second. -/
def fooBarSkill : Skill :=
  { name := "foo-bar", description := "first", location := "~/skills/foo-bar/SKILL.md" }

def foobarSkill : Skill :=
  { name := "foobar", description := "second", location := "~/skills/foobar/SKILL.md" }

/-- Counterexample to claim C6 as stated: when two catalog entries
    share a variant string, the JavaScript `Map` keeps the later
    skill's binding at the earlier insertion position, so the FIRST
    matching catalog entry is not the one returned. -/
theorem claimC6_cex :
    findSkill "use foobar skill" [fooBarSkill, foobarSkill] = some foobarSkill ∧
    catalogFirst "foobar" [fooBarSkill, foobarSkill] = some fooBarSkill ∧
    extractSkillReq "use foobar skill" = some "foobar" ∧
    foobarSkill ≠ fooBarSkill :=
  ⟨rfl, rfl, rfl, by decide⟩

/-- Claim C6 (amended): skill resolution lower-cases the text, captures
    a requested name with the patterns `use X skill`, `X skill to`, or
    `use X to` (in that order), and resolves it against the four
    variants of each catalog entry, accepting a variant by equality, by
    the requested name being a prefix of the variant, or by the
    variant's first four characters being a prefix of the requested
    name; when the catalog entries' variant sets are pairwise disjoint
    the first matching entry in catalog order is returned — but a
    variant string shared by several skills is re-bound to the last
    such skill by the `Map`, which can override catalog order. -/
theorem claimC6_amended (text : String) (skills : List Skill)
    (hdis : skills.Pairwise (fun a b => ∀ v ∈ skillVariants a, v ∉ skillVariants b)) :
    findSkill text skills =
      match extractSkillReq text with
      | some req => catalogFirst req skills
      | none => none := by
  unfold findSkill
  cases extractSkillReq text with
  | none => rfl
  | some req => exact lookupVariant_build req skills hdis

def wingmanSkill : Skill :=
  { name := "wingman", description := "Drafts email", location := "~/skills/wingman/SKILL.md" }

def deployHelperSkill : Skill :=
  { name := "deploy-helper", description := "Ships code",
    location := "~/skills/deploy-helper/SKILL.md" }

/-- Witness for the amended C6 on a disjoint two-skill catalog. -/
theorem claimC6_amended_witness :
    findSkill "use wingman skill to draft an email" [deployHelperSkill, wingmanSkill] =
      match extractSkillReq "use wingman skill to draft an email" with
      | some req => catalogFirst req [deployHelperSkill, wingmanSkill]
      | none => none :=
  claimC6_amended "use wingman skill to draft an email" [deployHelperSkill, wingmanSkill]
    (by decide)

/-! ## ModeClassifier — isConversationalRequest (src/server.js, lines
59-103) and the mode selection of handleChatCompletions (line 435)

`isConversationalRequest` first strips the five platform prefixes in
order (each `[^\]]+`), removes message-id tags, trims and lower-cases;
then tests the coding-indicator patterns BEFORE the conversational
ones, falling back to a length heuristic. -/

/-- One sequential anchored platform replace of the cleaning chain. -/
def strip1 (name : List Char) (l : List Char) : List Char :=
  match matchPlatformTag false name l with
  | some r => r
  | none => l

/-- The cleaning prelude of `isConversationalRequest`: the five
    platform replaces in source order, the global message-id replace,
    and the trim. -/
def cleanedText (l : List Char) : List Char :=
  trimChars (stripMessageIdsF (l.length + 1)
    (strip1 "signal".data (strip1 "slack".data (strip1 "discord".data
      (strip1 "telegram".data (strip1 "whatsapp".data l))))))

def codingVerbs : List (List Char) :=
  (["fix", "implement", "create", "write", "edit", "refactor", "debug", "test",
    "deploy", "build", "run", "execute", "compile", "install"] : List String).map
    String.data

def codingNouns : List (List Char) :=
  (["function", "class", "method", "variable", "file", "code", "script", "program",
    "api", "endpoint", "database", "server"] : List String).map String.data

def workflowNouns : List (List Char) :=
  (["bug", "error", "issue", "pr", "pull request", "commit", "branch", "merge",
    "git"] : List String).map String.data

/-- A `\b` boundary holds before the match when the previous character
    is absent or not a word character (all patterns start and end with
    word characters). -/
def boundaryOk : Option Char → Bool
  | none => true
  | some c => !isWordChar c

/-- `\bWORD\b` anchored at this position, `prev` being the previous
    character. -/
def wordAt (w : List Char) (prev : Option Char) (l : List Char) : Bool :=
  w.isPrefixOf l && boundaryOk prev &&
  (match l.drop w.length with
   | [] => true
   | c :: _ => !isWordChar c)

def containsWordAux (w : List Char) : Option Char → List Char → Bool
  | prev, [] => wordAt w prev []
  | prev, c :: cs => wordAt w prev (c :: cs) || containsWordAux w (some c) cs

def containsWord (w l : List Char) : Bool := containsWordAux w none l

def containsWordOf (ws : List (List Char)) (l : List Char) : Bool :=
  ws.any (fun w => containsWord w l)

/-- `\buse\s+\w+\s+skill\b` anchored at this position (note: no hyphens
    allowed in the middle word here, unlike the skill-capture
    patterns). -/
def useSkillAt (prev : Option Char) (l : List Char) : Bool :=
  boundaryOk prev && "use".data.isPrefixOf l &&
  (match parseWsPlus (l.drop 3) with
   | none => false
   | some l2 =>
     let w := l2.takeWhile isWordChar
     if w.isEmpty then false
     else
       match parseWsPlus (l2.drop w.length) with
       | none => false
       | some l4 =>
         "skill".data.isPrefixOf l4 &&
         (match l4.drop 5 with
          | [] => true
          | c :: _ => !isWordChar c))

def useSkillScan : Option Char → List Char → Bool
  | _, [] => false
  | prev, c :: cs => useSkillAt prev (c :: cs) || useSkillScan (some c) cs

/-- The ordered coding-indicator patterns: any match means the request
    is NOT conversational. -/
def codingHit (l : List Char) : Bool :=
  containsWordOf codingVerbs l || containsWordOf codingNouns l ||
  containsWordOf workflowNouns l || useSkillScan none l

def apos : Char := Char.ofNat 39

def convGreetings : List (List Char) :=
  ["hi".data, "hello".data, "hey".data, "what".data ++ apos :: "s up".data,
   "how are you".data]

def convQuestionStarts : List (List Char) :=
  ["what is".data, "what are".data, "what".data ++ apos :: "s".data, "who is".data,
   "who are".data, "where is".data, "why".data, "how does".data,
   "can you explain".data]

def convImperatives : List (List Char) :=
  ["tell me".data, "explain".data, "describe".data, "summarize".data]

def convAcks : List (List Char) :=
  ["thanks".data, "thank you".data, "ok".data, "okay".data, "great".data,
   "cool".data, "nice".data]

def startsWithAny (ps : List (List Char)) (l : List Char) : Bool :=
  ps.any (fun p => p.isPrefixOf l)

/-- The trailing `\?$` conversational pattern. -/
def endsWithQuestion (l : List Char) : Bool :=
  match l.getLast? with
  | some c => c == '?'
  | none => false

/-- The ordered conversational patterns, tested only when no coding
    pattern matched. -/
def conversationalHit (l : List Char) : Bool :=
  startsWithAny convGreetings l || startsWithAny convQuestionStarts l ||
  endsWithQuestion l || startsWithAny convImperatives l || startsWithAny convAcks l

/-- `isConversationalRequest` (src/server.js:59). -/
def isConversationalRequest (text : String) : Bool :=
  let lower := trimChars (lowerChars (cleanedText text.data))
  if codingHit lower then false
  else if conversationalHit lower then true
  else if decide (lower.length < 50) && !containsSub "file".data lower &&
      !containsSub "code".data lower then true
  else false

/-- The dispatch mode, as logged and acted on by
    `handleChatCompletions` (src/server.js:435): skill when a catalog
    entry is resolved from the latest user text, else conversational or
    coding by `isConversationalRequest`. -/
inductive Mode where
  | coding : Mode
  | conversational : Mode
  | skill (s : Skill) : Mode
  deriving DecidableEq

def classifyMode (text : String) (skills : List Skill) : Mode :=
  match findMentionedSkill text skills with
  | some s => Mode.skill s
  | none => if isConversationalRequest text then Mode.conversational else Mode.coding

def heyWhatsUp : String := String.mk ("hey, what".data ++ apos :: "s up?".data)

/-- Claim C5: the classifier scenarios — `fix the login bug` is coding;
    `hey, what's up?` is conversational; `use deploy-helper skill to
    ship this` resolves the catalog entry named deploy-helper; and the
    coding indicators are tested before the conversational ones, so
    `fix login bug?`, which matches a coding verb AND the trailing
    question-mark conversational pattern, classifies as coding. -/
theorem claimC5 :
    classifyMode "fix the login bug" [] = Mode.coding ∧
    classifyMode heyWhatsUp [] = Mode.conversational ∧
    classifyMode "use deploy-helper skill to ship this" [deployHelperSkill] =
      Mode.skill deployHelperSkill ∧
    codingHit (trimChars (lowerChars (cleanedText "fix login bug?".data))) = true ∧
    conversationalHit (trimChars (lowerChars (cleanedText "fix login bug?".data))) = true ∧
    classifyMode "fix login bug?" [] = Mode.coding :=
  ⟨rfl, rfl, rfl, rfl, rfl, rfl⟩

end Proxy
